import Mathlib

set_option maxHeartbeats 1000000

/-!
Verification development for the nv-redfish CSDL schema compiler
(`src/csdl-compiler/src/compiler`).  The Rust sources are shallowly
embedded: hash maps become function maps `K → Option V`, the borrow-chained
compilation stack becomes a list of frames, and the mutually recursive
resolvers become a fuel-indexed family of total functions (running out of
fuel is a distinguished error, so "the recursion terminates" is expressed
as "some finite fuel yields a non-fuel result").
-/

namespace NvRedfish

/-- EDMX namespace (edmx/attribute_values.rs `Namespace`): a sequence of
simple identifiers. -/
structure EdmxNamespace where
  ids : List String
deriving DecidableEq

/-- `Namespace::is_edm` (edmx/attribute_values.rs): exactly one identifier,
equal to `"Edm"`. -/
def EdmxNamespace.is_edm (n : EdmxNamespace) : Prop := n.ids = ["Edm"]

instance (n : EdmxNamespace) : Decidable n.is_edm :=
  inferInstanceAs (Decidable (n.ids = ["Edm"]))

/-- Compiler qualified name (compiler/qualified_name.rs is not in the tree;
the shape follows edmx `QualifiedName`: namespace plus simple identifier,
with structural equality). -/
structure QualifiedName where
  ns : EdmxNamespace
  name : String
deriving DecidableEq

/-- mod.rs `is_simple_type`: the referenced type's namespace is `Edm`. -/
def is_simple_type (q : QualifiedName) : Prop := q.ns.is_edm

instance (q : QualifiedName) : Decidable (is_simple_type q) :=
  inferInstanceAs (Decidable q.ns.is_edm)

/-- edmx `TypeName` (attribute_values.rs 17.4): a scalar or collection
type reference. -/
inductive TypeName where
  | one (q : QualifiedName)
  | collectionOf (q : QualifiedName)
deriving DecidableEq

/-- The qualified name inside a `TypeName` (both arms carry one; mirrors
`TypeName::One(v) | TypeName::CollectionOf(v) => v`). -/
def TypeName.qualified_type_name : TypeName → QualifiedName
  | .one q => q
  | .collectionOf q => q

/-- Modelled from the spec (§6): a declared structural or navigation
property (the edmx property declarations are not in the tree).  Each
carries its name and target type reference; a navigation property also
carries the auto-expand hint that decides expandable vs reference. -/
inductive PropDecl where
  | property (name : String) (ptype : TypeName)
  | navProperty (name : String) (ptype : TypeName) (autoExpand : Bool)
deriving DecidableEq

/-- Modelled from the spec (§6): declared entity type — optional base-type
reference, optional key, ordered properties, and the insertable capability
annotation read into the compiled OData record. -/
structure EntityTypeDecl where
  name : String
  base_type : Option QualifiedName
  key : Option (List String)
  properties : List PropDecl
  insertable : Option Bool
deriving DecidableEq

/-- Modelled from the spec (§6): declared complex type. -/
structure ComplexTypeDecl where
  name : String
  base_type : Option QualifiedName
  properties : List PropDecl
deriving DecidableEq

/-- Modelled from the spec (§6): declared type alias; its underlying type
reference (edmx `TypeDefinition`). -/
structure TypeDefinitionDecl where
  underlying_type : QualifiedName
deriving DecidableEq

/-- Declared enum type (edmx/enum_type.rs): optional underlying type and
member list (member name and optional value). -/
structure EnumTypeDecl where
  name : String
  underlying_type : Option String
  members : List (String × Option String)
deriving DecidableEq

/-- Modelled from the spec (§6): declared bound action — binding flag,
ordered parameters, optional return type. -/
structure ParamDecl where
  name : String
  ptype : TypeName
  nullable : Option Bool
  required : Bool
deriving DecidableEq

/-- Modelled from the spec (§6): a free-standing action declaration. -/
structure ActionDecl where
  name : String
  is_bound : Bool
  parameters : List ParamDecl
  return_type : Option TypeName
deriving DecidableEq

/-- Modelled from the spec (§6): a singleton declaration (name plus
declared type). -/
structure SingletonDecl where
  name : String
  stype : QualifiedName
deriving DecidableEq

/-- Modelled from the spec (§6): entity container holding the singleton
declarations of one schema. -/
structure EntityContainer where
  singletons : List SingletonDecl
deriving DecidableEq

/-- One declared type in a schema's name → declaration map. -/
inductive TypeDecl where
  | entityType (et : EntityTypeDecl)
  | complexType (ct : ComplexTypeDecl)
  | typeDefinition (td : TypeDefinitionDecl)
  | enumType (et : EnumTypeDecl)
deriving DecidableEq

/-- A parsed schema: namespace, name-keyed type declarations (an
association list standing for the hash map, whose order models the
unspecified hash iteration order), and the optional entity container. -/
structure Schema where
  ns : EdmxNamespace
  types : List (String × TypeDecl)
  entity_container : Option EntityContainer
deriving DecidableEq

/-- A parsed EDMX document (`edmx.data_services.schemas`). -/
structure Edmx where
  schemas : List Schema
deriving DecidableEq

/-- mod.rs `SchemaBundle`: the documents compiled together. -/
structure SchemaBundle where
  edmx_docs : List Edmx
deriving DecidableEq

/-- Look up a declaration by local name in a schema's association list
(`ns.types.get(&name)` on the hash map; first match wins, which agrees
with the hash map whenever keys are unique). -/
def Schema.lookupType : List (String × TypeDecl) → String → Option TypeDecl
  | [], _ => none
  | (k, t) :: rest, n => if k = n then some t else Schema.lookupType rest n

/-- Compiled OData annotations (compiler/odata.rs is not in the tree).
Modelled from the spec and the uses in entity_type.rs: only the fields the
claims observe — the `MustHaveId` flag and the insertable capability
annotation carried over from the declaration. -/
structure CompiledOData where
  must_have_id : Bool
  insertable : Option Bool
deriving DecidableEq

/-- `CompiledOData::new`: combines the `MustHaveId` flag chosen by the
caller with the annotations of the declaration (here: its insertable
flag). -/
def CompiledOData.new (m : Bool) (ins : Option Bool) : CompiledOData :=
  ⟨m, ins⟩

/-- Compiled structural property (compiled_properties.rs is not in the
tree; modelled from the spec: name plus resolved type reference). -/
structure CompiledProperty where
  name : String
  ptype : QualifiedName
deriving DecidableEq

/-- Payload of a compiled navigation property: name and target entity
type reference (scalar or collection). -/
structure NavPropertyData where
  name : String
  ptype : TypeName
deriving DecidableEq

/-- Compiled navigation property: expandable (auto-expanded) or plain
reference, as matched in entity_type.rs `insertable_member_type`. -/
inductive CompiledNavProperty where
  | expandable (d : NavPropertyData)
  | reference (d : NavPropertyData)
deriving DecidableEq

/-- `NavProperty` name accessor (`p.name()`). -/
def CompiledNavProperty.name : CompiledNavProperty → String
  | .expandable d => d.name
  | .reference d => d.name

/-- The qualified name of the navigation target (`p.ptype.name()`). -/
def CompiledNavProperty.target : CompiledNavProperty → QualifiedName
  | .expandable d => d.ptype.qualified_type_name
  | .reference d => d.ptype.qualified_type_name

/-- Compiled structural plus navigation properties of an entity or
complex type. -/
structure CompiledProperties where
  properties : List CompiledProperty
  nav_properties : List CompiledNavProperty
deriving DecidableEq

/-- The empty compiled property set. -/
def CompiledProperties.empty : CompiledProperties := ⟨[], []⟩

/-- compiled_entity_type.rs `CompiledEntityType` (same shape as
entity_type.rs `EntityType` minus the is_abstract flag, which no claim
observes). -/
structure CompiledEntityType where
  name : QualifiedName
  base : Option QualifiedName
  key : Option (List String)
  properties : CompiledProperties
  odata : CompiledOData
deriving DecidableEq

/-- First navigation property named `"Members"`
(`nav_properties.iter().find(|p| p.name() == "Members")`). -/
def findMembersNav : List CompiledNavProperty → Option CompiledNavProperty
  | [] => none
  | p :: rest => if p.name = "Members" then some p else findMembersNav rest

/-- entity_type.rs `EntityType::insertable_member_type`: when the type's
OData annotations mark it insertable, the member type of its expandable
navigation property named `"Members"`. -/
def CompiledEntityType.insertable_member_type
    (et : CompiledEntityType) : Option QualifiedName :=
  if et.odata.insertable = some true then
    match findMembersNav et.properties.nav_properties with
    | some (.expandable d) => some d.ptype.qualified_type_name
    | some (.reference _) => none
    | none => none
  else
    none

/-- complex_type.rs `ComplexType` (compiled). -/
structure CompiledComplexType where
  name : QualifiedName
  base : Option QualifiedName
  properties : CompiledProperties
  odata : CompiledOData
deriving DecidableEq

/-- type_definition.rs `TypeDefinition` (compiled): name plus underlying
primitive type. -/
structure CompiledTypeDefinition where
  name : QualifiedName
  underlying_type : QualifiedName
deriving DecidableEq

/-- Compiled enum type (mod.rs `compile_type` EnumType branch): name,
underlying type (declared or default), members, annotations. -/
structure CompiledEnumType where
  name : QualifiedName
  underlying_type : String
  members : List (String × Option String)
  odata : CompiledOData
deriving DecidableEq

/-- Classification of a compiled non-entity type (the TypeInfo values
produced by type_definition.rs and complex_type.rs; the newer mod.rs that
defines the type itself is not in the tree). -/
inductive TypeInfo where
  | simple
  | typeDefinition
  | enumType
  | complexType
deriving DecidableEq

/-- parameter.rs `ParameterType`: entity reference or plain (typed)
value. -/
inductive ParameterType where
  | entity (t : TypeName)
  | type (info : TypeInfo) (t : TypeName)
deriving DecidableEq

/-- parameter.rs `Parameter` (compiled action parameter). -/
structure CompiledParameter where
  name : String
  ptype : ParameterType
  nullable : Bool
  required : Bool
deriving DecidableEq

/-- action.rs `Action` (compiled). -/
structure CompiledAction where
  binding : QualifiedName
  binding_name : String
  name : String
  return_type : Option TypeName
  parameters : List CompiledParameter
deriving DecidableEq

/-- Right-biased union of two function maps (`HashMap::extend`: entries of
`other` overwrite entries of `self`). -/
def extendMap {K V : Type} (a other : K → Option V) : K → Option V :=
  fun k => match other k with
    | some v => some v
    | none => a k

/-- A one-entry function map (`vec![(k, v)].into_iter().collect()`). -/
def singletonMap {K V : Type} [DecidableEq K] (k : K) (v : V) :
    K → Option V :=
  fun q => if q = k then some v else none

/-- The empty function map. -/
def emptyMap {K V : Type} : K → Option V := fun _ => none

/-- compiled.rs `Compiled`: the mergeable IR — four scalar maps, the
two-level action map, and the creatable-entity-type set. -/
@[ext]
structure Compiled where
  complex_types : QualifiedName → Option CompiledComplexType
  entity_types : QualifiedName → Option CompiledEntityType
  type_definitions : QualifiedName → Option CompiledTypeDefinition
  enum_types : QualifiedName → Option CompiledEnumType
  actions : QualifiedName → Option (String → Option CompiledAction)
  creatable_entity_types : QualifiedName → Bool

/-- `Compiled::default()`: all maps empty. -/
def Compiled.empty : Compiled :=
  ⟨emptyMap, emptyMap, emptyMap, emptyMap, emptyMap, fun _ => false⟩

instance : Inhabited Compiled := ⟨Compiled.empty⟩

/-- compiled.rs `Compiled::new_entity_type`: a fragment holding one entity
type, and — exactly here — its insertable member type (if any) as the sole
element of the creatable set. -/
def Compiled.new_entity_type (v : CompiledEntityType) : Compiled :=
  { Compiled.empty with
      entity_types := singletonMap v.name v
      creatable_entity_types := fun q =>
        match v.insertable_member_type with
        | some t => decide (q = t)
        | none => false }

/-- compiled.rs `Compiled::new_complex_type`. -/
def Compiled.new_complex_type (v : CompiledComplexType) : Compiled :=
  { Compiled.empty with complex_types := singletonMap v.name v }

/-- compiled.rs `Compiled::new_type_definition`. -/
def Compiled.new_type_definition (v : CompiledTypeDefinition) : Compiled :=
  { Compiled.empty with type_definitions := singletonMap v.name v }

/-- compiled.rs `Compiled::new_enum_type`. -/
def Compiled.new_enum_type (v : CompiledEnumType) : Compiled :=
  { Compiled.empty with enum_types := singletonMap v.name v }

/-- compiled.rs `Compiled::new_action`: one bound type mapped to one inner
action map. -/
def Compiled.new_action (v : CompiledAction) : Compiled :=
  { Compiled.empty with
      actions := singletonMap v.binding (singletonMap v.name v) }

/-- compiled.rs `Compiled::merge`: scalar maps extend (entries of `other`
overwrite), the creatable set unions, and the two-level action map merges
inner maps per outer key (`selfactions.remove` / inner `extend` /
`insert`). -/
def Compiled.merge (a other : Compiled) : Compiled where
  complex_types := extendMap a.complex_types other.complex_types
  entity_types := extendMap a.entity_types other.entity_types
  type_definitions := extendMap a.type_definitions other.type_definitions
  enum_types := extendMap a.enum_types other.enum_types
  actions := fun q =>
    match other.actions q with
    | none => a.actions q
    | some bm =>
      match a.actions q with
      | none => some bm
      | some am => some (extendMap am bm)
  creatable_entity_types := fun q =>
    a.creatable_entity_types q || other.creatable_entity_types q

/-- error.rs is not in the tree; the variants are modelled from their uses
in the sources and the spec's error taxonomy (§7), plus `outOfFuel`, the
artifact of the fuel embedding of the recursion. -/
inductive Error where
  | typeNotFound (q : QualifiedName)
  | entityTypeNotFound (q : QualifiedName)
  | ambigousHeirarchy (q : QualifiedName)
  | typeDefinitionOfNotPrimitiveType (q : QualifiedName)
  | notBoundAction
  | noBindingParameterForAction
  | entityType (q : QualifiedName) (e : Error)
  | typeError (q : QualifiedName) (e : Error)
  | propertyError (name : String) (e : Error)
  | schema (ns : EdmxNamespace) (e : Error)
  | singleton (name : String) (e : Error)
  | actionReturnType (e : Error)
  | actionParameter (name : String) (e : Error)
  | outOfFuel
deriving DecidableEq

/-- stack.rs: one stack frame — the optional marker for the entity type
being compiled, and the frame's own accumulated IR. -/
structure Frame where
  entity_type : Option QualifiedName
  current : Compiled

/-- stack.rs `Stack`: the borrow chain of frames, innermost first (the
Rust parent pointers become the tail of the list). -/
structure Stack where
  frames : List Frame

/-- stack.rs `Stack::contains_entity` over the frame chain: the entity is
a key of some frame's accumulated entity map, or is some frame's
marker. -/
def containsEntityFrames : List Frame → QualifiedName → Bool
  | [], _ => false
  | fr :: rest, q =>
    (fr.current.entity_types q).isSome || decide (fr.entity_type = some q)
      || containsEntityFrames rest q

/-- stack.rs `Stack::contains_complex_type` over the frame chain. -/
def containsComplexFrames : List Frame → QualifiedName → Bool
  | [], _ => false
  | fr :: rest, q =>
    (fr.current.complex_types q).isSome || containsComplexFrames rest q

/-- stack.rs `Stack::contains_type_definition` over the frame chain. -/
def containsTypeDefFrames : List Frame → QualifiedName → Bool
  | [], _ => false
  | fr :: rest, q =>
    (fr.current.type_definitions q).isSome || containsTypeDefFrames rest q

/-- stack.rs `Stack::contains_enum_type` over the frame chain. -/
def containsEnumFrames : List Frame → QualifiedName → Bool
  | [], _ => false
  | fr :: rest, q =>
    (fr.current.enum_types q).isSome || containsEnumFrames rest q

/-- stack.rs `Stack::new_frame`: push an empty child frame. -/
def Stack.new_frame (st : Stack) : Stack :=
  ⟨⟨none, Compiled.empty⟩ :: st.frames⟩

/-- stack.rs `Stack::with_enitity_type` (sic): mark the innermost frame
with the entity type being compiled. -/
def Stack.with_enitity_type (st : Stack) (q : QualifiedName) : Stack :=
  match st.frames with
  | [] => ⟨[⟨some q, Compiled.empty⟩]⟩
  | fr :: rest => ⟨⟨some q, fr.current⟩ :: rest⟩

/-- stack.rs `Stack::merge`: merge a fragment into the innermost frame's
accumulator. -/
def Stack.merge (st : Stack) (c : Compiled) : Stack :=
  match st.frames with
  | [] => ⟨[⟨none, c⟩]⟩
  | fr :: rest => ⟨⟨fr.entity_type, fr.current.merge c⟩ :: rest⟩

/-- stack.rs `Stack::done`: close the innermost frame, handing back its
accumulated IR. -/
def Stack.done (st : Stack) : Compiled :=
  match st.frames with
  | [] => Compiled.empty
  | fr :: _ => fr.current

/-- stack.rs `Stack::default()`: the root frame. -/
def Stack.root : Stack := ⟨[⟨none, Compiled.empty⟩]⟩

/-- stack.rs `Stack::contains_entity`. -/
def Stack.contains_entity (st : Stack) (q : QualifiedName) : Bool :=
  containsEntityFrames st.frames q

/-- stack.rs `Stack::contains_complex_type`. -/
def Stack.contains_complex_type (st : Stack) (q : QualifiedName) : Bool :=
  containsComplexFrames st.frames q

/-- stack.rs `Stack::contains_type_definition`. -/
def Stack.contains_type_definition (st : Stack) (q : QualifiedName) : Bool :=
  containsTypeDefFrames st.frames q

/-- stack.rs `Stack::contains_enum_type`. -/
def Stack.contains_enum_type (st : Stack) (q : QualifiedName) : Bool :=
  containsEnumFrames st.frames q

/-- Modelled from the spec: the newer stack's `complex_type_info` used by
action.rs — a visible-frame lookup of a compiled complex type; action.rs
only observes whether the result is `none`. -/
def Stack.complex_type_info (st : Stack) (q : QualifiedName) :
    Option TypeInfo :=
  if st.contains_complex_type q then some .complexType else none

/-- The non-entity declarations that mod.rs `compile_type` dispatches on
(its match covers exactly type definitions, enums and complex types). -/
inductive NonEntityDecl where
  | typeDefinition (td : TypeDefinitionDecl)
  | enumType (et : EnumTypeDecl)
  | complexType (ct : ComplexTypeDecl)
deriving DecidableEq

/-- schema_index.rs `SchemaIndex`: the namespace index and the reverse
base → derived map (hash maps as function maps; the derived lists keep
insertion order, as the Rust `Vec` values do). -/
structure SchemaIndex where
  index : EdmxNamespace → Option Schema
  child_map : QualifiedName → List QualifiedName

/-- schema_index.rs `SchemaIndex::build`, index part: collect
`(namespace, schema)` pairs over all documents; later entries overwrite
earlier ones, as collecting into a hash map does. -/
def buildIndexMap : List Edmx → EdmxNamespace → Option Schema :=
  fun docs =>
    docs.foldl
      (fun m doc =>
        doc.schemas.foldl
          (fun m s => fun n => if n = s.ns then some s else m n) m)
      (fun _ => none)

/-- schema_index.rs `SchemaIndex::build`, child-map part, one schema's
types: every declared entity type with a base type appends its qualified
name to the entry of the base. -/
def childMapAddTypes (ns : EdmxNamespace) :
    (QualifiedName → List QualifiedName) → List (String × TypeDecl) →
      QualifiedName → List QualifiedName
  | m, [] => m
  | m, (_, .entityType et) :: rest =>
    match et.base_type with
    | some b =>
      childMapAddTypes ns
        (fun q => if q = b then m q ++ [⟨ns, et.name⟩] else m q) rest
    | none => childMapAddTypes ns m rest
  | m, _ :: rest => childMapAddTypes ns m rest

/-- Child-map build over the schemas of one document. -/
def childMapAddSchemas :
    (QualifiedName → List QualifiedName) → List Schema →
      QualifiedName → List QualifiedName
  | m, [] => m
  | m, s :: rest => childMapAddSchemas (childMapAddTypes s.ns m s.types) rest

/-- Child-map build over all documents. -/
def childMapAddDocs :
    (QualifiedName → List QualifiedName) → List Edmx →
      QualifiedName → List QualifiedName
  | m, [] => m
  | m, d :: rest => childMapAddDocs (childMapAddSchemas m d.schemas) rest

/-- schema_index.rs `SchemaIndex::build`. -/
def SchemaIndex.build (docs : List Edmx) : SchemaIndex :=
  { index := buildIndexMap docs
    child_map := childMapAddDocs (fun _ => []) docs }

/-- schema_index.rs `SchemaIndex::find_entity_type`: look the namespace
up in the index, then the local name in that schema's type map, keeping
only entity types. -/
def SchemaIndex.find_entity_type (idx : SchemaIndex) (q : QualifiedName) :
    Option EntityTypeDecl :=
  match idx.index q.ns with
  | none => none
  | some s =>
    match Schema.lookupType s.types q.name with
    | some (.entityType et) => some et
    | _ => none

/-- Modelled from the spec (§4.1: "find an entity/complex/alias/enum
declaration by qualified name"): `find_type`, the non-entity lookup used
by mod.rs `compile_type`, which dispatches on exactly type definitions,
enums and complex types. -/
def SchemaIndex.find_type (idx : SchemaIndex) (q : QualifiedName) :
    Option NonEntityDecl :=
  match idx.index q.ns with
  | none => none
  | some s =>
    match Schema.lookupType s.types q.name with
    | some (.typeDefinition td) => some (.typeDefinition td)
    | some (.enumType et) => some (.enumType et)
    | some (.complexType ct) => some (.complexType ct)
    | _ => none

/-- schema_index.rs `SchemaIndex::find_child_entity_type`: walk the
reverse map (error on more than one child, descend on exactly one, stop
on none), then look the final name up as an entity type.  The Rust
`while` loop becomes fuel recursion; the final lookup is the same
namespace-then-name lookup as `find_entity_type`. -/
def SchemaIndex.find_child_entity_type (idx : SchemaIndex) :
    Nat → QualifiedName → Except Error (QualifiedName × EntityTypeDecl)
  | 0, _ => .error .outOfFuel
  | fuel + 1, q =>
    match idx.child_map q with
    | [] =>
      match idx.find_entity_type q with
      | some et => .ok (q, et)
      | none => .error (.entityTypeNotFound q)
    | [c] => SchemaIndex.find_child_entity_type idx fuel c
    | _ => .error (.ambigousHeirarchy q)

/-- The schema index viewed through its three query operations — the
interface the resolvers thread (the `Context` of the newer sources). -/
structure Resolver where
  find_entity_type : QualifiedName → Option EntityTypeDecl
  find_type : QualifiedName → Option NonEntityDecl
  find_child : Nat → QualifiedName → Except Error (QualifiedName × EntityTypeDecl)

/-- Package a schema index as its query interface. -/
def SchemaIndex.toResolver (idx : SchemaIndex) : Resolver :=
  ⟨idx.find_entity_type, idx.find_type,
    fun f q => idx.find_child_entity_type f q⟩

/-- Trace of resolver-body executions, recorded so that "no type is
compiled twice" is observable: one event per execution of the compiling
body for the given qualified name. -/
inductive Event where
  | entity (q : QualifiedName)
  | complexT (q : QualifiedName)
  | typeDef (q : QualifiedName)
  | enumT (q : QualifiedName)
deriving DecidableEq

/-- An execution trace. -/
abbrev Log := List Event

/-- type_definition.rs `compile`: a type alias compiles iff its underlying
type is primitive (`Edm` namespace); the compiled record keeps that
underlying type. -/
def typeDefinitionCompile (qtype : QualifiedName) (td : TypeDefinitionDecl) :
    Except Error (Compiled × TypeInfo) :=
  if is_simple_type td.underlying_type then
    .ok (Compiled.new_type_definition ⟨qtype, td.underlying_type⟩,
      .typeDefinition)
  else
    .error (.typeDefinitionOfNotPrimitiveType td.underlying_type)

/-- The mutually recursive resolver bodies at one fuel level.  Each field
is one source function; `ensure_type`/`compile_type` are the mod.rs
versions, `ensureET`/`compileET` are compiled_entity_type.rs
`ensure`/`compile`, `compileProps` is the spec-modelled
`CompiledProperties::compile` (compiled_properties.rs is not in the tree:
per §4.2 it resolves every structural property via `ensure_type` and every
navigation property via the entity-type `ensure`, merging the fragments
into its frame), and `ensure_type_n`/`compile_type_n` are the newer
ensure/compile used by action.rs (their mod.rs is not in the tree;
modelled from the spec §4.2/§9 short-circuiting via the stack's
`contains_*` lookups, dispatching to the present type_definition.rs and
complex_type.rs compilers). -/
structure Interp where
  ensure_type : TypeName → Resolver → Stack → Except Error (Compiled × Log)
  compile_type : QualifiedName → Resolver → Stack → Except Error (Compiled × Log)
  ensureET : QualifiedName → Resolver → Stack → Except Error (Compiled × Log)
  compileET : QualifiedName → EntityTypeDecl → Resolver → Stack →
    Except Error (Compiled × Log)
  compileProps : List PropDecl → Resolver → Stack →
    Except Error (Compiled × CompiledProperties × Log)
  ensure_type_n : QualifiedName → Resolver → Stack →
    Except Error (Compiled × TypeInfo × Log)
  compile_type_n : QualifiedName → Resolver → Stack →
    Except Error (Compiled × TypeInfo × Log)

/-- The interpreter: structural recursion on fuel; each resolver body
calls the bodies of the previous fuel level, so running out of fuel is the
only way the embedded recursion can fail to bottom out. -/
def interpGo : Nat → Interp
  | 0 =>
    ⟨fun _ _ _ => .error .outOfFuel, fun _ _ _ => .error .outOfFuel,
     fun _ _ _ => .error .outOfFuel, fun _ _ _ _ => .error .outOfFuel,
     fun _ _ _ => .error .outOfFuel, fun _ _ _ => .error .outOfFuel,
     fun _ _ _ => .error .outOfFuel⟩
  | f + 1 =>
    let prev := interpGo f
    { ensure_type := fun tn R st =>
        let q := tn.qualified_type_name
        if st.contains_entity q || decide (is_simple_type q) then
          .ok (Compiled.empty, [])
        else
          prev.compile_type q R st
      compile_type := fun q R st =>
        match
          ((match R.find_type q with
           | none => .error (.typeNotFound q)
           | some (.typeDefinition td) =>
             if is_simple_type td.underlying_type then
               .ok (Compiled.new_type_definition ⟨q, td.underlying_type⟩,
                 ([.typeDef q] : Log))
             else
               .error (.typeDefinitionOfNotPrimitiveType td.underlying_type)
           | some (.enumType et) =>
             .ok (Compiled.new_enum_type
               ⟨q, et.underlying_type.getD "", et.members,
                 CompiledOData.new false none⟩, ([.enumT q] : Log))
           | some (.complexType ct) =>
             match
               ((match ct.base_type with
                | some b =>
                  match prev.compile_type b R st with
                  | .error e => .error e
                  | .ok (cB, logB) => .ok (some b, cB, logB)
                | none => .ok (none, Compiled.empty, ([] : Log))) :
                 Except Error (Option QualifiedName × Compiled × Log)) with
             | .error e => .error e
             | .ok (base, cB, logB) =>
               let st2 := (st.new_frame).merge cB
               match prev.compileProps ct.properties R st2.new_frame with
               | .error e => .error e
               | .ok (cP, props, logP) =>
                 .ok (((st2.merge cP).merge
                     (Compiled.new_complex_type
                       ⟨q, base, props, CompiledOData.new false none⟩)).done,
                   .complexT q :: (logB ++ logP))) :
            Except Error (Compiled × Log)) with
        | .error e => .error (.typeError q e)
        | .ok r => .ok r
      ensureET := fun q R st =>
        if st.contains_entity q then
          .ok (Compiled.empty, [])
        else
          match R.find_entity_type q with
          | none => .error (.entityType q (.entityTypeNotFound q))
          | some et =>
            match prev.compileET q et R st with
            | .error e => .error (.entityType q e)
            | .ok r => .ok r
      compileET := fun q et R st =>
        let st1 := (st.new_frame).with_enitity_type q
        match
          ((match et.base_type with
           | some b =>
             match prev.ensureET b R st1 with
             | .error e => .error e
             | .ok (cB, logB) => .ok (some b, cB, logB)
           | none => .ok (none, Compiled.empty, ([] : Log))) :
            Except Error (Option QualifiedName × Compiled × Log)) with
        | .error e => .error e
        | .ok (base, cB, logB) =>
          let st2 := (st1.new_frame).merge cB
          match prev.compileProps et.properties R st2.new_frame with
          | .error e => .error e
          | .ok (cP, props, logP) =>
            .ok (((st2.merge cP).merge
                (Compiled.new_entity_type
                  ⟨q, base, et.key, props,
                    CompiledOData.new true et.insertable⟩)).done,
              .entity q :: (logB ++ logP))
      compileProps := fun ps R st =>
        match ps with
        | [] => .ok (st.done, CompiledProperties.empty, [])
        | .property nm tn :: rest =>
          match prev.ensure_type tn R st with
          | .error e => .error (.propertyError nm e)
          | .ok (cp, lp) =>
            match prev.compileProps rest R (st.merge cp) with
            | .error e => .error e
            | .ok (c, props, lr) =>
              .ok (c,
                { props with
                    properties :=
                      ⟨nm, tn.qualified_type_name⟩ :: props.properties },
                lp ++ lr)
        | .navProperty nm tn expand :: rest =>
          match prev.ensureET tn.qualified_type_name R st with
          | .error e => .error (.propertyError nm e)
          | .ok (cp, lp) =>
            match prev.compileProps rest R (st.merge cp) with
            | .error e => .error e
            | .ok (c, props, lr) =>
              .ok (c,
                { props with
                    nav_properties :=
                      (if expand then CompiledNavProperty.expandable ⟨nm, tn⟩
                       else CompiledNavProperty.reference ⟨nm, tn⟩)
                        :: props.nav_properties },
                lp ++ lr)
      ensure_type_n := fun q R st =>
        if decide (is_simple_type q) then
          .ok (Compiled.empty, .simple, [])
        else if st.contains_complex_type q then
          .ok (Compiled.empty, .complexType, [])
        else if st.contains_type_definition q then
          .ok (Compiled.empty, .typeDefinition, [])
        else if st.contains_enum_type q then
          .ok (Compiled.empty, .enumType, [])
        else
          prev.compile_type_n q R st
      compile_type_n := fun q R st =>
        match
          ((match R.find_type q with
           | none => .error (.typeNotFound q)
           | some (.typeDefinition td) =>
             match typeDefinitionCompile q td with
             | .error e => .error e
             | .ok (c, info) => .ok (c, info, ([.typeDef q] : Log))
           | some (.enumType et) =>
             .ok (Compiled.new_enum_type
               ⟨q, et.underlying_type.getD "", et.members,
                 CompiledOData.new false none⟩, .enumType, ([.enumT q] : Log))
           | some (.complexType ct) =>
             match
               ((match ct.base_type with
                | some b =>
                  match prev.compile_type_n b R st with
                  | .error e => .error e
                  | .ok (cB, _, logB) => .ok (some b, cB, logB)
                | none => .ok (none, Compiled.empty, ([] : Log))) :
                 Except Error (Option QualifiedName × Compiled × Log)) with
             | .error e => .error e
             | .ok (base, cB, logB) =>
               let st2 := (st.new_frame).merge cB
               match prev.compileProps ct.properties R st2.new_frame with
               | .error e => .error e
               | .ok (cP, props, logP) =>
                 .ok (((st2.merge cP).merge
                     (Compiled.new_complex_type
                       ⟨q, base, props, CompiledOData.new false none⟩)).done,
                   .complexType, .complexT q :: (logB ++ logP))) :
            Except Error (Compiled × TypeInfo × Log)) with
        | .error e => .error (.typeError q e)
        | .ok r => .ok r }

/-- mod.rs `ensure_type`: no-op when the entity is on the frame chain or
the type is primitive, otherwise compile it. -/
def ensure_type (f : Nat) (tn : TypeName) (R : Resolver) (st : Stack) :
    Except Error (Compiled × Log) :=
  (interpGo f).ensure_type tn R st

/-- mod.rs `compile_type`. -/
def compile_type (f : Nat) (q : QualifiedName) (R : Resolver) (st : Stack) :
    Except Error (Compiled × Log) :=
  (interpGo f).compile_type q R st

/-- compiled_entity_type.rs `CompiledEntityType::ensure`. -/
def CompiledEntityType.ensure (f : Nat) (q : QualifiedName) (R : Resolver)
    (st : Stack) : Except Error (Compiled × Log) :=
  (interpGo f).ensureET q R st

/-- compiled_entity_type.rs `CompiledEntityType::compile`. -/
def CompiledEntityType.compile (f : Nat) (q : QualifiedName)
    (et : EntityTypeDecl) (R : Resolver) (st : Stack) :
    Except Error (Compiled × Log) :=
  (interpGo f).compileET q et R st

/-- Spec-modelled `CompiledProperties::compile`. -/
def CompiledProperties.compile (f : Nat) (ps : List PropDecl) (R : Resolver)
    (st : Stack) : Except Error (Compiled × CompiledProperties × Log) :=
  (interpGo f).compileProps ps R st

/-- The newer `ensure_type` used by action.rs (spec-modelled). -/
def ensure_type_new (f : Nat) (q : QualifiedName) (R : Resolver) (st : Stack) :
    Except Error (Compiled × TypeInfo × Log) :=
  (interpGo f).ensure_type_n q R st

/-- compiled_singleton.rs `CompiledSingleton::compile`: resolve the most
specific descendant of the declared type, compile it unless the frame
chain already holds it, and surface the resolved type name (compiled.rs's
`Compiled` has no root-singleton list, so the resolved name is returned
alongside the fragment). -/
def CompiledSingleton.compile (f : Nat) (s : SingletonDecl) (R : Resolver)
    (st : Stack) : Except Error (Compiled × QualifiedName × Log) :=
  match R.find_child f s.stype with
  | .error e => .error (.singleton s.name e)
  | .ok (qtype, et) =>
    if st.contains_entity qtype then
      .ok (Compiled.empty, qtype, [])
    else
      match CompiledEntityType.compile f qtype et R st with
      | .error e => .error (.singleton s.name (.entityType qtype e))
      | .ok (c, log) => .ok (c, qtype, log)

/-- mod.rs `compile_schema`, singleton fold: compile each activated
singleton, merging fragments into the frame. -/
def compileSingletons (f : Nat) (ss : List SingletonDecl)
    (singles : List String) (R : Resolver) (st : Stack) :
    Except Error (Compiled × Log) :=
  match ss with
  | [] => .ok (st.done, [])
  | s :: rest =>
    if s.name ∈ singles then
      match CompiledSingleton.compile f s R st with
      | .error e => .error e
      | .ok (c, _, log) =>
        match compileSingletons f rest singles R (st.merge c) with
        | .error e => .error e
        | .ok (c2, log2) => .ok (c2, log ++ log2)
    else
      compileSingletons f rest singles R st

/-- mod.rs `SchemaBundle::compile_schema`: no container means an empty
fragment; otherwise compile the activated singletons, wrapping failures
with the schema namespace. -/
def compile_schema (f : Nat) (ns : EdmxNamespace)
    (container : Option EntityContainer) (singles : List String)
    (R : Resolver) (st : Stack) : Except Error (Compiled × Log) :=
  match container with
  | none => .ok (Compiled.empty, [])
  | some c =>
    match compileSingletons f c.singletons singles R st with
    | .error e => .error (.schema ns e)
    | .ok r => .ok r

/-- mod.rs `SchemaBundle::compile`, inner fold over the schemas of one
document (each schema compiled on a fresh child frame, results merged). -/
def compileSchemas (f : Nat)
    (ss : List (EdmxNamespace × Option EntityContainer))
    (singles : List String) (R : Resolver) (st : Stack) :
    Except Error (Compiled × Log) :=
  match ss with
  | [] => .ok (st.done, [])
  | s :: rest =>
    match compile_schema f s.1 s.2 singles R st.new_frame with
    | .error e => .error e
    | .ok (c, log) =>
      match compileSchemas f rest singles R (st.merge c) with
      | .error e => .error e
      | .ok (c2, l2) => .ok (c2, log ++ l2)

/-- mod.rs `SchemaBundle::compile`, outer fold over the documents. -/
def compileDocs (f : Nat)
    (docs : List (List (EdmxNamespace × Option EntityContainer)))
    (singles : List String) (R : Resolver) (st : Stack) :
    Except Error (Compiled × Log) :=
  match docs with
  | [] => .ok (st.done, [])
  | d :: rest =>
    match compileSchemas f d singles R st.new_frame with
    | .error e => .error e
    | .ok (c, log) =>
      match compileDocs f rest singles R (st.merge c) with
      | .error e => .error e
      | .ok (c2, l2) => .ok (c2, log ++ l2)

/-- The singleton-relevant projection of a schema: its namespace and
entity container (the rest is reached through the schema index). -/
def Schema.head (s : Schema) : EdmxNamespace × Option EntityContainer :=
  (s.ns, s.entity_container)

/-- mod.rs `SchemaBundle::compile`: build the index, then fold the
documents and their schemas over the root stack, compiling the activated
singletons of each. -/
def SchemaBundle.compile (f : Nat) (b : SchemaBundle)
    (singles : List String) : Except Error (Compiled × Log) :=
  compileDocs f (b.edmx_docs.map (fun d => d.schemas.map Schema.head))
    singles (SchemaIndex.build b.edmx_docs).toResolver Stack.root

/-- action.rs, parameter fold: each non-binding parameter is classified
as a primitive value, an indexed non-entity type (resolved via the newer
`ensure_type`) or an entity reference (resolved via the entity
`ensure`); failures are wrapped with the parameter name. -/
def compileParams (f : Nat) (R : Resolver) :
    List ParamDecl → Stack → Except Error (Stack × List CompiledParameter)
  | [], st => .ok (st, [])
  | p :: rest, st =>
    let qt := p.ptype.qualified_type_name
    match
      ((if decide (is_simple_type qt) then
        .ok (Compiled.empty, ParameterType.type .simple p.ptype)
      else if (R.find_type qt).isSome then
        match ensure_type_new f qt R st with
        | .error e => .error e
        | .ok (c, info, _) => .ok (c, ParameterType.type info p.ptype)
      else
        match CompiledEntityType.ensure f qt R st with
        | .error e => .error e
        | .ok (c, _) => .ok (c, ParameterType.entity p.ptype)) :
        Except Error (Compiled × ParameterType)) with
    | .error e => .error (.actionParameter p.name e)
    | .ok (c, ptype) =>
      match compileParams f R rest (st.merge c) with
      | .error e => .error e
      | .ok (st2, params) =>
        .ok (st2, ⟨p.name, ptype, p.nullable.getD false, p.required⟩ :: params)

/-- action.rs `compile_action`: reject unbound actions, reject actions
without a binding parameter, silently drop actions whose binding type was
never compiled as a complex type in a visible frame, then compile the
return type and the remaining parameters and emit the bound action. -/
def compile_action (f : Nat) (action : ActionDecl) (R : Resolver)
    (st : Stack) : Except Error Compiled :=
  if action.is_bound = false then .error .notBoundAction
  else
    match action.parameters with
    | [] => .error .noBindingParameterForAction
    | bp :: rest =>
      let binding := bp.ptype.qualified_type_name
      if st.complex_type_info binding = none then .ok Compiled.empty
      else
        let st1 := st.new_frame
        match
          ((match action.return_type with
           | none => .ok (Compiled.empty, none)
           | some rt =>
             match ensure_type_new f rt.qualified_type_name R st1 with
             | .error e => .error (Error.actionReturnType e)
             | .ok (c, _, _) => .ok (c, some rt)) :
            Except Error (Compiled × Option TypeName)) with
        | .error e => .error e
        | .ok (cRT, return_type) =>
          let st2 := st1.merge cRT
          match compileParams f R rest st2 with
          | .error e => .error e
          | .ok (st3, params) =>
            .ok ((st3.merge (Compiled.new_action
              ⟨binding, bp.name, action.name, return_type, params⟩)).done)

/-! Unfolding equations for the fuel-indexed resolvers (each proved by
`rfl` against `interpGo`), stated in terms of the named wrappers. -/

theorem ensure_type_succ (f : Nat) (tn : TypeName) (R : Resolver) (st : Stack) :
    ensure_type (f + 1) tn R st =
      (if st.contains_entity tn.qualified_type_name
          || decide (is_simple_type tn.qualified_type_name) then
        .ok (Compiled.empty, [])
      else
        compile_type f tn.qualified_type_name R st) := rfl

theorem compile_type_succ (f : Nat) (q : QualifiedName) (R : Resolver)
    (st : Stack) :
    compile_type (f + 1) q R st =
      (match
        ((match R.find_type q with
         | none => .error (.typeNotFound q)
         | some (.typeDefinition td) =>
           if is_simple_type td.underlying_type then
             .ok (Compiled.new_type_definition ⟨q, td.underlying_type⟩,
               ([.typeDef q] : Log))
           else
             .error (.typeDefinitionOfNotPrimitiveType td.underlying_type)
         | some (.enumType et) =>
           .ok (Compiled.new_enum_type
             ⟨q, et.underlying_type.getD "", et.members,
               CompiledOData.new false none⟩, ([.enumT q] : Log))
         | some (.complexType ct) =>
           match
             ((match ct.base_type with
              | some b =>
                match compile_type f b R st with
                | .error e => .error e
                | .ok (cB, logB) => .ok (some b, cB, logB)
              | none => .ok (none, Compiled.empty, ([] : Log))) :
               Except Error (Option QualifiedName × Compiled × Log)) with
           | .error e => .error e
           | .ok (base, cB, logB) =>
             let st2 := (st.new_frame).merge cB
             match CompiledProperties.compile f ct.properties R st2.new_frame with
             | .error e => .error e
             | .ok (cP, props, logP) =>
               .ok (((st2.merge cP).merge
                   (Compiled.new_complex_type
                     ⟨q, base, props, CompiledOData.new false none⟩)).done,
                 .complexT q :: (logB ++ logP))) :
          Except Error (Compiled × Log)) with
      | .error e => .error (.typeError q e)
      | .ok r => .ok r) := rfl

theorem ensureET_succ (f : Nat) (q : QualifiedName) (R : Resolver) (st : Stack) :
    CompiledEntityType.ensure (f + 1) q R st =
      (if st.contains_entity q then
        .ok (Compiled.empty, [])
      else
        match R.find_entity_type q with
        | none => .error (.entityType q (.entityTypeNotFound q))
        | some et =>
          match CompiledEntityType.compile f q et R st with
          | .error e => .error (.entityType q e)
          | .ok r => .ok r) := rfl

theorem compileET_succ (f : Nat) (q : QualifiedName) (et : EntityTypeDecl)
    (R : Resolver) (st : Stack) :
    CompiledEntityType.compile (f + 1) q et R st =
      (let st1 := (st.new_frame).with_enitity_type q
      match
        ((match et.base_type with
         | some b =>
           match CompiledEntityType.ensure f b R st1 with
           | .error e => .error e
           | .ok (cB, logB) => .ok (some b, cB, logB)
         | none => .ok (none, Compiled.empty, ([] : Log))) :
          Except Error (Option QualifiedName × Compiled × Log)) with
      | .error e => .error e
      | .ok (base, cB, logB) =>
        let st2 := (st1.new_frame).merge cB
        match CompiledProperties.compile f et.properties R st2.new_frame with
        | .error e => .error e
        | .ok (cP, props, logP) =>
          .ok (((st2.merge cP).merge
              (Compiled.new_entity_type
                ⟨q, base, et.key, props,
                  CompiledOData.new true et.insertable⟩)).done,
            .entity q :: (logB ++ logP))) := rfl

theorem compileProps_nil (f : Nat) (R : Resolver) (st : Stack) :
    CompiledProperties.compile (f + 1) [] R st =
      .ok (st.done, CompiledProperties.empty, []) := rfl

theorem compileProps_property (f : Nat) (nm : String) (tn : TypeName)
    (rest : List PropDecl) (R : Resolver) (st : Stack) :
    CompiledProperties.compile (f + 1) (.property nm tn :: rest) R st =
      (match ensure_type f tn R st with
      | .error e => .error (.propertyError nm e)
      | .ok (cp, lp) =>
        match CompiledProperties.compile f rest R (st.merge cp) with
        | .error e => .error e
        | .ok (c, props, lr) =>
          .ok (c,
            { props with
                properties := ⟨nm, tn.qualified_type_name⟩ :: props.properties },
            lp ++ lr)) := rfl

theorem compileProps_nav (f : Nat) (nm : String) (tn : TypeName) (expand : Bool)
    (rest : List PropDecl) (R : Resolver) (st : Stack) :
    CompiledProperties.compile (f + 1) (.navProperty nm tn expand :: rest) R st =
      (match CompiledEntityType.ensure f tn.qualified_type_name R st with
      | .error e => .error (.propertyError nm e)
      | .ok (cp, lp) =>
        match CompiledProperties.compile f rest R (st.merge cp) with
        | .error e => .error e
        | .ok (c, props, lr) =>
          .ok (c,
            { props with
                nav_properties :=
                  (if expand then CompiledNavProperty.expandable ⟨nm, tn⟩
                   else CompiledNavProperty.reference ⟨nm, tn⟩)
                    :: props.nav_properties },
            lp ++ lr)) := rfl

theorem ensure_type_new_succ (f : Nat) (q : QualifiedName) (R : Resolver)
    (st : Stack) :
    ensure_type_new (f + 1) q R st =
      (if decide (is_simple_type q) then
        .ok (Compiled.empty, .simple, [])
      else if st.contains_complex_type q then
        .ok (Compiled.empty, .complexType, [])
      else if st.contains_type_definition q then
        .ok (Compiled.empty, .typeDefinition, [])
      else if st.contains_enum_type q then
        .ok (Compiled.empty, .enumType, [])
      else
        (interpGo f).compile_type_n q R st) := rfl

theorem ensure_type_zero (tn : TypeName) (R : Resolver) (st : Stack) :
    ensure_type 0 tn R st = .error .outOfFuel := rfl

theorem ensureET_zero (q : QualifiedName) (R : Resolver) (st : Stack) :
    CompiledEntityType.ensure 0 q R st = .error .outOfFuel := rfl

/-! Merge algebra (claim C6 support). -/

theorem extendMap_assoc {K V : Type} (a b c : K → Option V) :
    extendMap (extendMap a b) c = extendMap a (extendMap b c) := by
  funext k
  simp only [extendMap]
  cases c k <;> cases b k <;> rfl

theorem merge_actions_eq (a b : Compiled) (q : QualifiedName) :
    (a.merge b).actions q =
      (match b.actions q with
       | none => a.actions q
       | some bm =>
         match a.actions q with
         | none => some bm
         | some am => some (extendMap am bm)) := rfl

/-- Pointwise disjointness of two function maps. -/
def mapsDisjoint {K V : Type} (a b : K → Option V) : Prop :=
  ∀ k, a k = none ∨ b k = none

/-- Per-map key disjointness of two IR fragments (for the action map:
disjointness of the bound-type keys). -/
def Compiled.disjointKeys (a b : Compiled) : Prop :=
  mapsDisjoint a.complex_types b.complex_types ∧
    mapsDisjoint a.entity_types b.entity_types ∧
    mapsDisjoint a.type_definitions b.type_definitions ∧
    mapsDisjoint a.enum_types b.enum_types ∧
    mapsDisjoint a.actions b.actions

theorem extendMap_comm_of_disjoint {K V : Type} (a b : K → Option V)
    (h : mapsDisjoint a b) : extendMap a b = extendMap b a := by
  funext k
  rcases h k with h' | h' <;> simp only [extendMap, h'] <;>
    cases hb : b k <;> cases ha : a k <;> simp_all [extendMap]

theorem merge_assoc (a b c : Compiled) :
    (a.merge b).merge c = a.merge (b.merge c) := by
  refine Compiled.ext ?_ ?_ ?_ ?_ ?_ ?_
  · exact extendMap_assoc _ _ _
  · exact extendMap_assoc _ _ _
  · exact extendMap_assoc _ _ _
  · exact extendMap_assoc _ _ _
  · funext q
    simp only [Compiled.merge]
    rcases hc : c.actions q with _ | cm <;> rcases hb : b.actions q with _ | bm <;>
      rcases ha : a.actions q with _ | am <;> simp [extendMap_assoc]
  · funext q
    exact Bool.or_assoc _ _ _

theorem merge_comm_of_disjoint (a b : Compiled) (h : a.disjointKeys b) :
    a.merge b = b.merge a := by
  obtain ⟨h1, h2, h3, h4, h5⟩ := h
  refine Compiled.ext ?_ ?_ ?_ ?_ ?_ ?_
  · exact extendMap_comm_of_disjoint _ _ h1
  · exact extendMap_comm_of_disjoint _ _ h2
  · exact extendMap_comm_of_disjoint _ _ h3
  · exact extendMap_comm_of_disjoint _ _ h4
  · funext q
    simp only [Compiled.merge]
    rcases h5 q with h' | h'
    · rcases hb : b.actions q with _ | bm <;> simp [h', hb]
    · rcases ha : a.actions q with _ | am <;> simp [h', ha]
  · funext q
    exact Bool.or_comm _ _

theorem extendMap_isSome {K V : Type} (a b : K → Option V) (k : K) :
    ((extendMap a b) k).isSome = ((a k).isSome || (b k).isSome) := by
  simp only [extendMap]
  cases b k <;> simp

/-- Claim C6 (amended): `Compiled::merge` is associative; it is
commutative whenever the two fragments' key sets are disjoint per map
(for the action map, disjoint bound-type keys); the scalar maps combine
by map-union, the creatable set by set union, and inner action maps
accumulate per shared outer key.  (Unrestricted commutativity fails: with
a shared key the later fragment's entry wins, see the counterexample.) -/
theorem merge_assoc_and_disjoint_comm :
    (∀ a b c : Compiled, (a.merge b).merge c = a.merge (b.merge c)) ∧
    (∀ a b : Compiled, a.disjointKeys b → a.merge b = b.merge a) ∧
    (∀ (a b : Compiled) (q : QualifiedName),
      ((a.merge b).entity_types q).isSome
          = ((a.entity_types q).isSome || (b.entity_types q).isSome) ∧
        ((a.merge b).complex_types q).isSome
          = ((a.complex_types q).isSome || (b.complex_types q).isSome) ∧
        (a.merge b).creatable_entity_types q
          = (a.creatable_entity_types q || b.creatable_entity_types q)) ∧
    (∀ (a b : Compiled) (q : QualifiedName) (am bm : String → Option CompiledAction),
      a.actions q = some am → b.actions q = some bm →
        (a.merge b).actions q = some (extendMap am bm)) := by
  refine ⟨merge_assoc, merge_comm_of_disjoint, ?_, ?_⟩
  · intro a b q
    exact ⟨extendMap_isSome _ _ _, extendMap_isSome _ _ _, rfl⟩
  · intro a b q am bm ha hb
    simp only [Compiled.merge, ha, hb]

/-- Closed instance discharging the disjointness hypothesis of the
commutativity part of `merge_assoc_and_disjoint_comm`. -/
theorem merge_assoc_and_disjoint_comm_witness :
    (Compiled.new_entity_type
        ⟨⟨⟨["NS"]⟩, "A"⟩, none, none, ⟨[], []⟩, ⟨true, none⟩⟩).merge
      (Compiled.new_complex_type ⟨⟨⟨["NS"]⟩, "B"⟩, none, ⟨[], []⟩, ⟨false, none⟩⟩)
    = (Compiled.new_complex_type
        ⟨⟨⟨["NS"]⟩, "B"⟩, none, ⟨[], []⟩, ⟨false, none⟩⟩).merge
      (Compiled.new_entity_type ⟨⟨⟨["NS"]⟩, "A"⟩, none, none, ⟨[], []⟩, ⟨true, none⟩⟩) :=
  merge_assoc_and_disjoint_comm.2.1 _ _
    ⟨fun _ => Or.inl rfl, fun _ => Or.inr rfl, fun _ => Or.inl rfl,
      fun _ => Or.inl rfl, fun _ => Or.inl rfl⟩

/-- The qualified name and entity-type records used in the merge
commutativity counterexample: two fragments carrying the same key with
different field values. -/
def cexQ : QualifiedName := ⟨⟨["NS"]⟩, "A"⟩

/-- One of the two conflicting entity records. -/
def cexEt1 : CompiledEntityType := ⟨cexQ, none, none, ⟨[], []⟩, ⟨true, none⟩⟩

/-- The other conflicting entity record (same name, different key
field). -/
def cexEt2 : CompiledEntityType :=
  ⟨cexQ, none, some ["Id"], ⟨[], []⟩, ⟨true, none⟩⟩

/-- Claim C6 counterexample: merge is not commutative — two fragments
holding the same qualified name with different records merge to different
IRs in the two orders (the later write wins). -/
theorem merge_not_commutative_counterexample :
    ¬ ((Compiled.new_entity_type cexEt1).merge (Compiled.new_entity_type cexEt2)
        = (Compiled.new_entity_type cexEt2).merge (Compiled.new_entity_type cexEt1)) :=
  fun h =>
    absurd (congrArg (fun c => c.entity_types cexQ) h) (by decide)

/-- Claim C8: a type alias compiles iff its underlying type is primitive
(`Edm` namespace); on success the compiled record stores that underlying
type, on failure the error is Type Definition Of Not-Primitive Type
carrying the underlying type's name.  Stated both for the standalone
type_definition.rs `compile` and for the mod.rs `compile_type`
type-definition branch (which wraps the error in the type's identity). -/
theorem type_definition_compile_iff_primitive :
    (∀ q td, (∃ r, typeDefinitionCompile q td = .ok r)
        ↔ is_simple_type td.underlying_type) ∧
    (∀ q td r, typeDefinitionCompile q td = .ok r →
      r.1 = Compiled.new_type_definition ⟨q, td.underlying_type⟩ ∧
        r.1.type_definitions q = some ⟨q, td.underlying_type⟩ ∧
        r.2 = .typeDefinition) ∧
    (∀ q td, ¬ is_simple_type td.underlying_type →
      typeDefinitionCompile q td
        = .error (.typeDefinitionOfNotPrimitiveType td.underlying_type)) ∧
    (∀ (f : Nat) (q : QualifiedName) (td : TypeDefinitionDecl) (R : Resolver)
        (st : Stack), R.find_type q = some (.typeDefinition td) →
      (is_simple_type td.underlying_type →
        compile_type (f + 1) q R st
          = .ok (Compiled.new_type_definition ⟨q, td.underlying_type⟩,
              [.typeDef q])) ∧
      (¬ is_simple_type td.underlying_type →
        compile_type (f + 1) q R st
          = .error (.typeError q
              (.typeDefinitionOfNotPrimitiveType td.underlying_type)))) := by
  refine ⟨?_, ?_, ?_, ?_⟩
  · intro q td
    by_cases h : is_simple_type td.underlying_type <;>
      simp [typeDefinitionCompile, h]
  · intro q td r hr
    by_cases h : is_simple_type td.underlying_type
    · simp only [typeDefinitionCompile, if_pos h, Except.ok.injEq] at hr
      subst hr
      refine ⟨rfl, ?_, rfl⟩
      simp [Compiled.new_type_definition, singletonMap]
    · simp [typeDefinitionCompile, if_neg h] at hr
  · intro q td h
    simp [typeDefinitionCompile, if_neg h]
  · intro f q td R st hfind
    constructor <;> intro h <;> rw [compile_type_succ] <;>
      simp [hfind, h]

/-- Closed instance discharging the hypotheses of
`type_definition_compile_iff_primitive` (a concrete alias of `Edm.String`
and a resolver exposing it). -/
theorem type_definition_compile_iff_primitive_witness :
    compile_type 1 ⟨⟨["NS"]⟩, "Alias"⟩
        ⟨fun _ => none,
          fun q' => if q' = ⟨⟨["NS"]⟩, "Alias"⟩ then
            some (.typeDefinition ⟨⟨⟨["Edm"]⟩, "String"⟩⟩) else none,
          fun _ _ => .error .outOfFuel⟩ Stack.root
      = .ok (Compiled.new_type_definition
          ⟨⟨⟨["NS"]⟩, "Alias"⟩, ⟨⟨["Edm"]⟩, "String"⟩⟩,
        [.typeDef ⟨⟨["NS"]⟩, "Alias"⟩]) :=
  (type_definition_compile_iff_primitive.2.2.2 0 ⟨⟨["NS"]⟩, "Alias"⟩
      ⟨⟨⟨["Edm"]⟩, "String"⟩⟩ _ Stack.root (by simp)).1 (by decide)

/-- The claim C9 premise as stated: the compiled entity type is marked
insertable (in the IR the insertable mark lives on the owning type's
OData record) and owns a collection navigation property whose element
type is `t`. -/
def ownsInsertableCollection (et : CompiledEntityType) (t : QualifiedName) : Prop :=
  et.odata.insertable = some true ∧
    ∃ p ∈ et.properties.nav_properties,
      ∃ d, p = CompiledNavProperty.expandable d ∧ d.ptype = TypeName.collectionOf t

/-- An insertable-marked entity type owning an expandable collection
navigation property named `"Links"` (not `"Members"`). -/
def cexLinksEt : CompiledEntityType :=
  ⟨⟨⟨["NS"]⟩, "Coll"⟩, none, none,
    ⟨[], [CompiledNavProperty.expandable ⟨"Links", .collectionOf cexQ⟩]⟩,
    ⟨true, some true⟩⟩

/-- Claim C9 counterexample: an insertable entity type owning a collection
navigation property (named `"Links"`) whose element type is NOT added to
the creatable set — only a property named `"Members"` counts. -/
theorem creatable_requires_members_counterexample :
    ownsInsertableCollection cexLinksEt cexQ ∧
      (Compiled.new_entity_type cexLinksEt).creatable_entity_types cexQ = false := by
  constructor
  · exact ⟨rfl, CompiledNavProperty.expandable ⟨"Links", .collectionOf cexQ⟩,
      by simp [cexLinksEt], ⟨"Links", .collectionOf cexQ⟩, rfl, rfl⟩
  · decide

/-- Claim C9 (amended): `Compiled::new_entity_type` adds to the creatable
set exactly the insertable member type of the entity type — present iff
the type's OData annotations mark it insertable and its first navigation
property named `"Members"` is expandable, in which case the added name is
that property's element type; no other fragment constructor contributes
to the creatable set, and merging only unions it, so creatable names
enter the IR exactly where an entity type is compiled. -/
theorem creatable_set_exactly_members_insertable :
    (∀ (et : CompiledEntityType) (q : QualifiedName),
      (Compiled.new_entity_type et).creatable_entity_types q = true
        ↔ et.insertable_member_type = some q) ∧
    (∀ (et : CompiledEntityType) (t : QualifiedName),
      et.insertable_member_type = some t
        ↔ (et.odata.insertable = some true ∧
            ∃ d, findMembersNav et.properties.nav_properties
                = some (.expandable d) ∧
              d.ptype.qualified_type_name = t)) ∧
    (∀ (ct : CompiledComplexType) (q : QualifiedName),
      (Compiled.new_complex_type ct).creatable_entity_types q = false) ∧
    (∀ (td : CompiledTypeDefinition) (q : QualifiedName),
      (Compiled.new_type_definition td).creatable_entity_types q = false) ∧
    (∀ (e : CompiledEnumType) (q : QualifiedName),
      (Compiled.new_enum_type e).creatable_entity_types q = false) ∧
    (∀ (a : CompiledAction) (q : QualifiedName),
      (Compiled.new_action a).creatable_entity_types q = false) ∧
    (∀ (a b : Compiled) (q : QualifiedName),
      (a.merge b).creatable_entity_types q
        = (a.creatable_entity_types q || b.creatable_entity_types q)) := by
  refine ⟨?_, ?_, fun _ _ => rfl, fun _ _ => rfl, fun _ _ => rfl,
    fun _ _ => rfl, fun _ _ _ => rfl⟩
  · intro et q
    simp only [Compiled.new_entity_type]
    cases h : et.insertable_member_type with
    | none => simp
    | some t => simp [eq_comm]
  · intro et t
    simp only [CompiledEntityType.insertable_member_type]
    by_cases h : et.odata.insertable = some true
    · simp only [if_pos h, h, true_and]
      cases hm : findMembersNav et.properties.nav_properties with
      | none => simp
      | some p =>
        cases p with
        | expandable d => simp
        | reference d => simp
    · simp [if_neg h, h]

/-- namespace.rs `Namespace` (the compiler's namespace wrapper): a view of
an EDMX namespace truncated to its first `len` identifiers. -/
structure CompilerNamespace where
  edmx_ns : EdmxNamespace
  len : Nat
deriving DecidableEq

/-- namespace.rs `Namespace::new`: view of the whole namespace. -/
def CompilerNamespace.new (n : EdmxNamespace) : CompilerNamespace :=
  ⟨n, n.ids.length⟩

/-- namespace.rs `Namespace::parent`: same identifiers, length one less,
for namespaces with at least two identifiers. -/
def CompilerNamespace.parent (n : CompilerNamespace) : Option CompilerNamespace :=
  if n.len > 1 then some ⟨n.edmx_ns, n.len - 1⟩ else none

/-- The identifier slice `ids[..len]` that equality and hashing read. -/
def CompilerNamespace.sliceIds (n : CompilerNamespace) : List String :=
  n.edmx_ns.ids.take n.len

/-- namespace.rs `PartialEq for Namespace`: equal lengths and equal
`ids[..len]` slices. -/
def CompilerNamespace.eqv (a b : CompilerNamespace) : Prop :=
  a.len = b.len ∧ a.edmx_ns.ids.take a.len = b.edmx_ns.ids.take a.len

/-- namespace.rs `Hash for Namespace`: the hash reads exactly the
`ids[..len]` slice, so it is a function of `sliceIds`. -/
def CompilerNamespace.hashInput (n : CompilerNamespace) : List String :=
  n.sliceIds

/-- Claim C10: `parent` keeps the identifier sequence and shortens the
view by exactly one, returning `none` iff the wrapper has exactly one
identifier; equality considers only the first `len` identifiers, so two
wrappers are equal iff their identifier slices are equal; and equal
wrappers hash identically (the hash reads just the slice).  The length
hypotheses state that the wrapper is one reachable from
`Namespace::new`/`parent` on a nonempty namespace. -/
theorem namespace_parent_eq_hash :
    (∀ n : CompilerNamespace, 1 ≤ n.len →
      ((n.parent = none ↔ n.len = 1) ∧
        ∀ p, n.parent = some p →
          p.edmx_ns = n.edmx_ns ∧ p.len = n.len - 1)) ∧
    (∀ a b : CompilerNamespace,
      a.len ≤ a.edmx_ns.ids.length → b.len ≤ b.edmx_ns.ids.length →
      ((a.eqv b ↔ a.sliceIds = b.sliceIds) ∧
        (a.eqv b → a.hashInput = b.hashInput))) := by
  constructor
  · intro n h1
    constructor
    · simp only [CompilerNamespace.parent]
      constructor
      · intro h
        by_cases hl : n.len > 1
        · simp [if_pos hl] at h
        · omega
      · intro h
        simp [h]
    · intro p hp
      simp only [CompilerNamespace.parent] at hp
      by_cases hl : n.len > 1
      · simp only [if_pos hl, Option.some.injEq] at hp
        subst hp
        exact ⟨rfl, rfl⟩
      · simp [if_neg hl] at hp
  · intro a b ha hb
    have hiff : a.eqv b ↔ a.sliceIds = b.sliceIds := by
      constructor
      · rintro ⟨hlen, hslice⟩
        simp only [CompilerNamespace.sliceIds]
        rw [← hlen]
        exact hslice
      · intro h
        have hlen : a.len = b.len := by
          have h1 : (a.edmx_ns.ids.take a.len).length = a.len :=
            List.length_take_of_le ha
          have h2 : (b.edmx_ns.ids.take b.len).length = b.len :=
            List.length_take_of_le hb
          rw [CompilerNamespace.sliceIds, CompilerNamespace.sliceIds] at h
          rw [← h1, ← h2, h]
        refine ⟨hlen, ?_⟩
        simp only [CompilerNamespace.sliceIds] at h
        rw [hlen] at h ⊢
        exact h
    refine ⟨hiff, fun h => ?_⟩
    simp only [CompilerNamespace.hashInput]
    exact hiff.mp h

/-- Closed instance discharging the hypotheses of
`namespace_parent_eq_hash` at a two-identifier namespace. -/
theorem namespace_parent_eq_hash_witness :
    ((CompilerNamespace.mk ⟨["Resource", "v1_0_0"]⟩ 2).parent = none ↔
        (CompilerNamespace.mk ⟨["Resource", "v1_0_0"]⟩ 2).len = 1) ∧
      ∀ p, (CompilerNamespace.mk ⟨["Resource", "v1_0_0"]⟩ 2).parent = some p →
        p.edmx_ns = ⟨["Resource", "v1_0_0"]⟩ ∧ p.len = 1 :=
  (namespace_parent_eq_hash.1 ⟨⟨["Resource", "v1_0_0"]⟩, 2⟩ (by decide))

end NvRedfish


namespace NvRedfish

theorem Compiled.empty_entity_types (q : QualifiedName) :
    Compiled.empty.entity_types q = none := rfl

theorem Compiled.merge_entity_types (a b : Compiled) (q : QualifiedName) :
    (a.merge b).entity_types q = extendMap a.entity_types b.entity_types q := rfl

theorem Compiled.newET_entity_types (v : CompiledEntityType) (q : QualifiedName) :
    (Compiled.new_entity_type v).entity_types q = singletonMap v.name v q := rfl

theorem singletonMap_app {K V : Type} [DecidableEq K] (k : K) (v : V) (q : K) :
    singletonMap k v q = if q = k then some v else none := rfl

theorem Stack.new_frame_def (st : Stack) :
    st.new_frame = ⟨⟨none, Compiled.empty⟩ :: st.frames⟩ := rfl

theorem Stack.with_ent_cons (fr : Frame) (l : List Frame) (q : QualifiedName) :
    Stack.with_enitity_type ⟨fr :: l⟩ q = ⟨⟨some q, fr.current⟩ :: l⟩ := rfl

theorem Stack.merge_cons (fr : Frame) (l : List Frame) (c : Compiled) :
    Stack.merge ⟨fr :: l⟩ c = ⟨⟨fr.entity_type, fr.current.merge c⟩ :: l⟩ := rfl

theorem Stack.done_cons (fr : Frame) (l : List Frame) :
    Stack.done ⟨fr :: l⟩ = fr.current := rfl

theorem Stack.contains_entity_mk (l : List Frame) (q : QualifiedName) :
    Stack.contains_entity ⟨l⟩ q = containsEntityFrames l q := rfl

/-- The entity type of the self-reference cycle shape: a navigation
property whose target is the type itself. -/
def selfNavDecl (nsids : List String) (a : String) : EntityTypeDecl :=
  ⟨a, none, none, [.navProperty "Ref" (.one ⟨⟨nsids⟩, a⟩) false], none⟩

/-- A schema bundle in which entity type `a` has a navigation property of
type `a`, with an activated singleton rooted at `a`. -/
def selfRefBundle (nsids : List String) (a : String) : SchemaBundle :=
  ⟨[⟨[⟨⟨nsids⟩, [(a, .entityType (selfNavDecl nsids a))],
      some ⟨[⟨"S", ⟨⟨nsids⟩, a⟩⟩]⟩⟩]⟩]⟩

set_option maxRecDepth 4000 in
theorem selfRef_cycle_ok (f : Nat) (nsids : List String) (a : String) :
    ∃ c log, SchemaBundle.compile (f + 40) (selfRefBundle nsids a) ["S"] = .ok (c, log)
      ∧ ((c.entity_types ⟨⟨nsids⟩, a⟩).isSome = true) := by
  have hchild : (SchemaIndex.build (selfRefBundle nsids a).edmx_docs).child_map
      = fun _ => [] := rfl
  have hfe : (SchemaIndex.build (selfRefBundle nsids a).edmx_docs).toResolver.find_entity_type
        ⟨⟨nsids⟩, a⟩ = some (selfNavDecl nsids a) := by
    simp [SchemaIndex.toResolver, SchemaIndex.build, SchemaIndex.find_entity_type,
      buildIndexMap, selfRefBundle, Schema.lookupType]
  have hfc : ∀ g : Nat,
      (SchemaIndex.build (selfRefBundle nsids a).edmx_docs).toResolver.find_child (g + 1)
        ⟨⟨nsids⟩, a⟩ = .ok (⟨⟨nsids⟩, a⟩, selfNavDecl nsids a) := by
    intro g
    have hstep : (SchemaIndex.build (selfRefBundle nsids a).edmx_docs).toResolver.find_child (g + 1)
        ⟨⟨nsids⟩, a⟩ = (SchemaIndex.build (selfRefBundle nsids a).edmx_docs).find_child_entity_type
          (g + 1) ⟨⟨nsids⟩, a⟩ := rfl
    rw [hstep, SchemaIndex.find_child_entity_type]
    rw [show (SchemaIndex.build (selfRefBundle nsids a).edmx_docs).child_map ⟨⟨nsids⟩, a⟩ = [] from
      congrFun hchild _]
    have hfe' : (SchemaIndex.build (selfRefBundle nsids a).edmx_docs).find_entity_type
        ⟨⟨nsids⟩, a⟩ = some (selfNavDecl nsids a) := hfe
    rw [hfe']
  have LA : ∀ (g : Nat) (st : Stack), ∃ c log,
      CompiledEntityType.compile (g + 3) ⟨⟨nsids⟩, a⟩ (selfNavDecl nsids a)
        (SchemaIndex.build (selfRefBundle nsids a).edmx_docs).toResolver st = .ok (c, log)
      ∧ ((c.entity_types ⟨⟨nsids⟩, a⟩).isSome = true) := by
    intro g st
    rw [compileET_succ]
    simp only [selfNavDecl]
    rw [compileProps_nav]
    rw [ensureET_succ]
    have hc : (Stack.mk (⟨none, Compiled.empty⟩ ::
        ⟨none, Compiled.empty.merge Compiled.empty⟩ ::
        ⟨some ⟨⟨nsids⟩, a⟩, Compiled.empty⟩ :: st.frames)).contains_entity ⟨⟨nsids⟩, a⟩
        = true := by
      simp [Stack.contains_entity_mk, containsEntityFrames, Compiled.empty,
        Compiled.merge, extendMap, emptyMap]
    simp only [Stack.new_frame_def, Stack.with_ent_cons, Stack.merge_cons, Stack.done_cons,
      TypeName.qualified_type_name] at hc ⊢
    rw [hc]
    simp only [if_true]
    rw [compileProps_nil]
    simp only [Stack.merge_cons, Stack.done_cons]
    exact ⟨_, _, rfl, by
      simp [Compiled.merge_entity_types, extendMap_isSome, Compiled.empty_entity_types,
        Compiled.newET_entity_types, singletonMap_app, selfNavDecl]⟩
  obtain ⟨cA, logA, hA, hAmem⟩ := LA (f + 37) ⟨[⟨none, Compiled.empty⟩, ⟨none, Compiled.empty⟩,
    ⟨none, Compiled.empty⟩]⟩
  have hnc : (Stack.mk [⟨none, Compiled.empty⟩, ⟨none, Compiled.empty⟩,
      ⟨none, Compiled.empty⟩]).contains_entity ⟨⟨nsids⟩, a⟩ = false := by
    simp [Stack.contains_entity_mk, containsEntityFrames, Compiled.empty, emptyMap]
  simp only [selfRefBundle] at hfc hA
  simp only [SchemaBundle.compile, selfRefBundle, List.map, Schema.head,
    compileDocs, compileSchemas, compile_schema, compileSingletons,
    CompiledSingleton.compile, List.mem_singleton, Stack.root, Stack.new_frame_def,
    Stack.merge_cons, Stack.done_cons, hfc, hnc, hA,
    Bool.false_eq_true, if_false, if_true, eq_self_iff_true]
  exact ⟨_, _, rfl, by
    simp [Compiled.merge_entity_types, extendMap_isSome, Compiled.empty_entity_types, hAmem]⟩

/-- The two entity types of the mutual cycle shape: each holds a
navigation property targeting the other. -/
def mutualDeclA (nsids : List String) (a b : String) : EntityTypeDecl :=
  ⟨a, none, none, [.navProperty "Ref" (.one ⟨⟨nsids⟩, b⟩) false], none⟩

/-- The second entity type of the mutual cycle shape. -/
def mutualDeclB (nsids : List String) (a b : String) : EntityTypeDecl :=
  ⟨b, none, none, [.navProperty "Ref" (.one ⟨⟨nsids⟩, a⟩) false], none⟩

/-- A schema bundle in which entity types `a` and `b` reference each
other, with an activated singleton rooted at `a`. -/
def mutualBundle (nsids : List String) (a b : String) : SchemaBundle :=
  ⟨[⟨[⟨⟨nsids⟩,
      [(a, .entityType (mutualDeclA nsids a b)),
       (b, .entityType (mutualDeclB nsids a b))],
      some ⟨[⟨"S", ⟨⟨nsids⟩, a⟩⟩]⟩⟩]⟩]⟩

set_option maxRecDepth 4000 in
theorem mutual_cycle_ok (f : Nat) (nsids : List String) (a b : String) (hab : a ≠ b) :
    ∃ c log, SchemaBundle.compile (f + 40) (mutualBundle nsids a b) ["S"] = .ok (c, log)
      ∧ (c.entity_types ⟨⟨nsids⟩, a⟩).isSome = true
      ∧ (c.entity_types ⟨⟨nsids⟩, b⟩).isSome = true := by
  have hchild : (SchemaIndex.build (mutualBundle nsids a b).edmx_docs).child_map
      = fun _ => [] := rfl
  have hfeA : (SchemaIndex.build (mutualBundle nsids a b).edmx_docs).toResolver.find_entity_type
        ⟨⟨nsids⟩, a⟩ = some (mutualDeclA nsids a b) := by
    simp [SchemaIndex.toResolver, SchemaIndex.build, SchemaIndex.find_entity_type,
      buildIndexMap, mutualBundle, Schema.lookupType]
  have hfeB : (SchemaIndex.build (mutualBundle nsids a b).edmx_docs).toResolver.find_entity_type
        ⟨⟨nsids⟩, b⟩ = some (mutualDeclB nsids a b) := by
    simp [SchemaIndex.toResolver, SchemaIndex.build, SchemaIndex.find_entity_type,
      buildIndexMap, mutualBundle, Schema.lookupType, hab]
  have hfc : ∀ g : Nat,
      (SchemaIndex.build (mutualBundle nsids a b).edmx_docs).toResolver.find_child (g + 1)
        ⟨⟨nsids⟩, a⟩ = .ok (⟨⟨nsids⟩, a⟩, mutualDeclA nsids a b) := by
    intro g
    have hstep : (SchemaIndex.build (mutualBundle nsids a b).edmx_docs).toResolver.find_child (g + 1)
        ⟨⟨nsids⟩, a⟩ = (SchemaIndex.build (mutualBundle nsids a b).edmx_docs).find_child_entity_type
          (g + 1) ⟨⟨nsids⟩, a⟩ := rfl
    rw [hstep, SchemaIndex.find_child_entity_type]
    rw [show (SchemaIndex.build (mutualBundle nsids a b).edmx_docs).child_map ⟨⟨nsids⟩, a⟩ = []
      from congrFun hchild _]
    have hfeA' : (SchemaIndex.build (mutualBundle nsids a b).edmx_docs).find_entity_type
        ⟨⟨nsids⟩, a⟩ = some (mutualDeclA nsids a b) := hfeA
    rw [hfeA']
  have LB : ∀ g : Nat, ∃ c log,
      CompiledEntityType.compile (g + 3) ⟨⟨nsids⟩, b⟩ (mutualDeclB nsids a b)
        (SchemaIndex.build (mutualBundle nsids a b).edmx_docs).toResolver
        ⟨[⟨none, Compiled.empty⟩, ⟨none, Compiled.empty.merge Compiled.empty⟩,
          ⟨some ⟨⟨nsids⟩, a⟩, Compiled.empty⟩, ⟨none, Compiled.empty⟩,
          ⟨none, Compiled.empty⟩, ⟨none, Compiled.empty⟩]⟩ = .ok (c, log)
      ∧ (c.entity_types ⟨⟨nsids⟩, b⟩).isSome = true := by
    intro g
    rw [compileET_succ]
    simp only [mutualDeclB]
    rw [compileProps_nav]
    rw [ensureET_succ]
    have hc : (Stack.mk (⟨none, Compiled.empty⟩ ::
        ⟨none, Compiled.empty.merge Compiled.empty⟩ ::
        ⟨some ⟨⟨nsids⟩, b⟩, Compiled.empty⟩ ::
        [⟨none, Compiled.empty⟩, ⟨none, Compiled.empty.merge Compiled.empty⟩,
          ⟨some ⟨⟨nsids⟩, a⟩, Compiled.empty⟩, ⟨none, Compiled.empty⟩,
          ⟨none, Compiled.empty⟩, ⟨none, Compiled.empty⟩])).contains_entity ⟨⟨nsids⟩, a⟩
        = true := by
      simp [Stack.contains_entity_mk, containsEntityFrames, Compiled.empty,
        Compiled.merge, extendMap, emptyMap]
    simp only [Stack.new_frame_def, Stack.with_ent_cons, Stack.merge_cons, Stack.done_cons,
      TypeName.qualified_type_name] at hc ⊢
    rw [hc]
    simp only [if_true]
    rw [compileProps_nil]
    simp only [Stack.merge_cons, Stack.done_cons]
    exact ⟨_, _, rfl, by
      simp [Compiled.merge_entity_types, extendMap_isSome, Compiled.empty_entity_types,
        Compiled.newET_entity_types, singletonMap_app, mutualDeclB]⟩
  have LA : ∀ g : Nat, ∃ c log,
      CompiledEntityType.compile (g + 6) ⟨⟨nsids⟩, a⟩ (mutualDeclA nsids a b)
        (SchemaIndex.build (mutualBundle nsids a b).edmx_docs).toResolver
        ⟨[⟨none, Compiled.empty⟩, ⟨none, Compiled.empty⟩, ⟨none, Compiled.empty⟩]⟩
        = .ok (c, log)
      ∧ (c.entity_types ⟨⟨nsids⟩, a⟩).isSome = true
      ∧ (c.entity_types ⟨⟨nsids⟩, b⟩).isSome = true := by
    intro g
    obtain ⟨cB, logB, hB, hBmem⟩ := LB g
    rw [compileET_succ]
    simp only [mutualDeclA]
    rw [compileProps_nav]
    rw [ensureET_succ]
    have hnc : (Stack.mk (⟨none, Compiled.empty⟩ ::
        ⟨none, Compiled.empty.merge Compiled.empty⟩ ::
        ⟨some ⟨⟨nsids⟩, a⟩, Compiled.empty⟩ ::
        [⟨none, Compiled.empty⟩, ⟨none, Compiled.empty⟩,
          ⟨none, Compiled.empty⟩])).contains_entity ⟨⟨nsids⟩, b⟩ = false := by
      simp [Stack.contains_entity_mk, containsEntityFrames, Compiled.empty,
        Compiled.merge, extendMap, emptyMap, QualifiedName.mk.injEq, hab]
    simp only [Stack.new_frame_def, Stack.with_ent_cons, Stack.merge_cons, Stack.done_cons,
      TypeName.qualified_type_name] at hnc ⊢
    rw [hnc]
    simp only [Bool.false_eq_true, if_false]
    simp only [hfeB, hB, compileProps_nil, Stack.merge_cons, Stack.done_cons]
    refine ⟨_, _, rfl, ?_, ?_⟩
    · simp [Compiled.merge_entity_types, extendMap_isSome, Compiled.empty_entity_types,
        Compiled.newET_entity_types, singletonMap_app, mutualDeclA, hBmem,
        QualifiedName.mk.injEq]
    · simp [Compiled.merge_entity_types, extendMap_isSome, Compiled.empty_entity_types,
        Compiled.newET_entity_types, singletonMap_app, mutualDeclA, hBmem,
        QualifiedName.mk.injEq]
  obtain ⟨cA, logA, hA, hAmemA, hAmemB⟩ := LA (f + 34)
  have hnc : (Stack.mk [⟨none, Compiled.empty⟩, ⟨none, Compiled.empty⟩,
      ⟨none, Compiled.empty⟩]).contains_entity ⟨⟨nsids⟩, a⟩ = false := by
    simp [Stack.contains_entity_mk, containsEntityFrames, Compiled.empty, emptyMap]
  simp only [mutualBundle] at hfc hA
  simp only [SchemaBundle.compile, mutualBundle, List.map, Schema.head,
    compileDocs, compileSchemas, compile_schema, compileSingletons,
    CompiledSingleton.compile, List.mem_singleton, Stack.root, Stack.new_frame_def,
    Stack.merge_cons, Stack.done_cons, hfc, hnc, hA,
    Bool.false_eq_true, if_false, if_true, eq_self_iff_true]
  refine ⟨_, _, rfl, ?_, ?_⟩
  · simp [Compiled.merge_entity_types, extendMap_isSome, Compiled.empty_entity_types, hAmemA]
  · simp [Compiled.merge_entity_types, extendMap_isSome, Compiled.empty_entity_types, hAmemB]

/-- Claim C1: for the cyclic schema-bundle shapes — an entity type `a`
with a navigation property of type `a`, and entity types `a` and `b` each
referencing the other through a navigation property — `SchemaBundle::compile`
terminates (any fuel of at least 40 suffices for the fuel embedding of the
recursion: the frame marked with the entity type under compilation makes
the recursive ensure call a no-op), the compile succeeds, and in the
mutual case both `a` and `b` are present as entity-type keys in the
resulting IR. -/
theorem cycle_compilation_succeeds (f : Nat) (nsids : List String)
    (a b : String) (hab : a ≠ b) :
    (∃ c log, SchemaBundle.compile (f + 40) (selfRefBundle nsids a) ["S"] = .ok (c, log)
      ∧ (c.entity_types ⟨⟨nsids⟩, a⟩).isSome = true) ∧
    (∃ c log, SchemaBundle.compile (f + 40) (mutualBundle nsids a b) ["S"] = .ok (c, log)
      ∧ (c.entity_types ⟨⟨nsids⟩, a⟩).isSome = true
      ∧ (c.entity_types ⟨⟨nsids⟩, b⟩).isSome = true) :=
  ⟨selfRef_cycle_ok f nsids a, mutual_cycle_ok f nsids a b hab⟩

/-- Reverse-map descent chain: `r` is reachable from `q` by repeatedly
following a uniquely recorded derived type. -/
inductive DescChain (cm : QualifiedName → List QualifiedName) :
    QualifiedName → QualifiedName → Prop where
  | refl (q : QualifiedName) : DescChain cm q q
  | step (q c r : QualifiedName) (h : cm q = [c]) (hc : DescChain cm c r) :
      DescChain cm q r

/-- Modelled from the spec's words (§4.1), for comparison with the code's
walk: the most-specific-descendant walk that additionally stops when the
single derived type is already present in the active frame chain. -/
def findChildSpecWalk (cm : QualifiedName → List QualifiedName)
    (inFrames : QualifiedName → Bool) :
    Nat → QualifiedName → Except Error QualifiedName
  | 0, _ => .error .outOfFuel
  | f + 1, q =>
    match cm q with
    | [] => .ok q
    | [c] => if inFrames c then .ok c else findChildSpecWalk cm inFrames f c
    | _ => .error (.ambigousHeirarchy q)

/-- A three-level single-inheritance hierarchy Base ← Mid ← Leaf. -/
def descBundle : SchemaBundle :=
  ⟨[⟨[⟨⟨["NS"]⟩,
      [("Base", .entityType ⟨"Base", none, none, [], none⟩),
       ("Mid", .entityType ⟨"Mid", some ⟨⟨["NS"]⟩, "Base"⟩, none, [], none⟩),
       ("Leaf", .entityType ⟨"Leaf", some ⟨⟨["NS"]⟩, "Mid"⟩, none, [], none⟩)],
      none⟩]⟩]⟩

/-- The index of the Base ← Mid ← Leaf hierarchy. -/
def descIdx : SchemaIndex := SchemaIndex.build descBundle.edmx_docs

/-- A frame chain on which `Mid` is already compiled. -/
def descStack : Stack :=
  Stack.root.merge (Compiled.new_entity_type
    ⟨⟨⟨["NS"]⟩, "Mid"⟩, none, none, ⟨[], []⟩, ⟨true, none⟩⟩)

/-- Claim C4 counterexample: the code's walk does not stop at a descendant
already present in the active frame chain — with `Mid` on the frame chain
it still resolves `Base` to `Leaf`, and singleton compilation resolves to
`Leaf` as well, whereas the walk described by the claim stops at `Mid`. -/
theorem find_child_ignores_frame_chain_counterexample :
    (descIdx.find_child_entity_type 10 ⟨⟨["NS"]⟩, "Base"⟩).map Prod.fst
        = .ok ⟨⟨["NS"]⟩, "Leaf"⟩ ∧
      findChildSpecWalk descIdx.child_map
          (fun q => descStack.contains_entity q) 10 ⟨⟨["NS"]⟩, "Base"⟩
        = .ok ⟨⟨["NS"]⟩, "Mid"⟩ ∧
      (⟨⟨["NS"]⟩, "Mid"⟩ : QualifiedName) ≠ ⟨⟨["NS"]⟩, "Leaf"⟩ ∧
      descStack.contains_entity ⟨⟨["NS"]⟩, "Mid"⟩ = true ∧
      (CompiledSingleton.compile 20 ⟨"S", ⟨⟨["NS"]⟩, "Base"⟩⟩
          descIdx.toResolver descStack).map (fun r => r.2.1)
        = .ok ⟨⟨["NS"]⟩, "Leaf"⟩ :=
  ⟨rfl, rfl, by decide, rfl, rfl⟩

/-- Claim C4 (amended): the walk of `find_child_entity_type` fails with
Ambiguous Hierarchy as soon as it reaches a name with more than one
recorded derived type, descends on exactly one, and stops only when no
further derived type is recorded — the active frame chain is never
consulted during the walk (the function does not receive it); on success
the singleton resolves to the deepest descendant, whose declaration is
returned. -/
theorem find_child_walk_characterization :
    (∀ (idx : SchemaIndex) (f : Nat) (q r : QualifiedName) (et : EntityTypeDecl),
      idx.find_child_entity_type f q = .ok (r, et) →
        DescChain idx.child_map q r ∧ idx.child_map r = [] ∧
          idx.find_entity_type r = some et) ∧
    (∀ (idx : SchemaIndex) (f : Nat) (q x : QualifiedName),
      idx.find_child_entity_type f q = .error (.ambigousHeirarchy x) →
        DescChain idx.child_map q x ∧ 2 ≤ (idx.child_map x).length) ∧
    (∀ (idx : SchemaIndex) (f : Nat) (q c1 c2 : QualifiedName)
        (rest : List QualifiedName),
      idx.child_map q = c1 :: c2 :: rest →
        idx.find_child_entity_type (f + 1) q = .error (.ambigousHeirarchy q)) := by
  refine ⟨?_, ?_, ?_⟩
  · intro idx f
    induction f with
    | zero =>
      intro q r et h
      exact absurd h (by simp [SchemaIndex.find_child_entity_type])
    | succ f ih =>
      intro q r et h
      rw [SchemaIndex.find_child_entity_type] at h
      rcases hcm : idx.child_map q with _ | ⟨c, _ | ⟨c2, rest⟩⟩
      · simp only [hcm] at h
        rcases hfe : idx.find_entity_type q with _ | et'
        · simp [hfe] at h
        · simp only [hfe, Except.ok.injEq, Prod.mk.injEq] at h
          obtain ⟨h1, h2⟩ := h
          subst h1
          subst h2
          exact ⟨DescChain.refl q, hcm, hfe⟩
      · simp only [hcm] at h
        obtain ⟨h1, h2, h3⟩ := ih c r et h
        exact ⟨DescChain.step q c r hcm h1, h2, h3⟩
      · simp [hcm] at h
  · intro idx f
    induction f with
    | zero =>
      intro q x h
      exact absurd h (by simp [SchemaIndex.find_child_entity_type])
    | succ f ih =>
      intro q x h
      rw [SchemaIndex.find_child_entity_type] at h
      rcases hcm : idx.child_map q with _ | ⟨c, _ | ⟨c2, rest⟩⟩
      · simp only [hcm] at h
        rcases hfe : idx.find_entity_type q with _ | et' <;> simp [hfe] at h
      · simp only [hcm] at h
        obtain ⟨h1, h2⟩ := ih c x h
        exact ⟨DescChain.step q c x hcm h1, h2⟩
      · simp only [hcm, Except.error.injEq, Error.ambigousHeirarchy.injEq] at h
        subst h
        rw [hcm]
        exact ⟨DescChain.refl q, by simp⟩
  · intro idx f q c1 c2 rest h
    rw [SchemaIndex.find_child_entity_type]
    simp [h]

/-- Closed instance discharging the hypotheses of
`find_child_walk_characterization` on the Base ← Mid ← Leaf hierarchy. -/
theorem find_child_walk_characterization_witness :
    DescChain descIdx.child_map ⟨⟨["NS"]⟩, "Base"⟩ ⟨⟨["NS"]⟩, "Leaf"⟩ ∧
      descIdx.child_map ⟨⟨["NS"]⟩, "Leaf"⟩ = [] ∧
      descIdx.find_entity_type ⟨⟨["NS"]⟩, "Leaf"⟩
        = some ⟨"Leaf", some ⟨⟨["NS"]⟩, "Mid"⟩, none, [], none⟩ :=
  find_child_walk_characterization.1 descIdx 10 ⟨⟨["NS"]⟩, "Base"⟩
    ⟨⟨["NS"]⟩, "Leaf"⟩ ⟨"Leaf", some ⟨⟨["NS"]⟩, "Mid"⟩, none, [], none⟩ rfl

theorem compileParams_error_shape (f : Nat) (R : Resolver) :
    ∀ (ps : List ParamDecl) (st : Stack) (e : Error),
      compileParams f R ps st = .error e →
        ∃ n e', e = .actionParameter n e' := by
  intro ps
  induction ps with
  | nil =>
    intro st e h
    simp [compileParams] at h
  | cons p rest ih =>
    intro st e h
    rw [compileParams] at h
    split at h
    · simp only [Except.error.injEq] at h
      exact ⟨p.name, _, h.symm⟩
    · split at h
      · simp only [Except.error.injEq] at h
        subst h
        exact ih _ _ (by assumption)
      · simp at h

theorem compile_action_tail_shape (f : Nat) (a : ActionDecl) (R : Resolver)
    (st : Stack) (bp : ParamDecl) (rest : List ParamDecl)
    (hb : a.is_bound = true) (hp : a.parameters = bp :: rest)
    (hci : ¬ st.complex_type_info bp.ptype.qualified_type_name = none) :
    (∃ c, compile_action f a R st = .ok c) ∨
      (∃ e, compile_action f a R st = .error (.actionReturnType e)) ∨
      (∃ n e, compile_action f a R st = .error (.actionParameter n e)) := by
  rw [compile_action, if_neg (by simp [hb]), hp]
  simp only []
  rw [if_neg hci]
  cases hrt : a.return_type with
  | none =>
    cases hps : compileParams f R rest ((st.new_frame).merge Compiled.empty) with
    | error e =>
      obtain ⟨n, e', he⟩ := compileParams_error_shape f R rest _ e hps
      subst he
      refine Or.inr (Or.inr ⟨n, e', ?_⟩)
      simp [hps]
    | ok r =>
      refine Or.inl ⟨(r.1.merge (Compiled.new_action
        ⟨bp.ptype.qualified_type_name, bp.name, a.name, none, r.2⟩)).done, ?_⟩
      simp [hps]
  | some rt =>
    cases hen : ensure_type_new f rt.qualified_type_name R st.new_frame with
    | error e =>
      refine Or.inr (Or.inl ⟨e, ?_⟩)
      simp [hen]
    | ok r =>
      cases hps : compileParams f R rest ((st.new_frame).merge r.1) with
      | error e =>
        obtain ⟨n, e', he⟩ := compileParams_error_shape f R rest _ e hps
        subst he
        refine Or.inr (Or.inr ⟨n, e', ?_⟩)
        simp [hen, hps]
      | ok r2 =>
        refine Or.inl ⟨(r2.1.merge (Compiled.new_action
          ⟨bp.ptype.qualified_type_name, bp.name, a.name, some rt, r2.2⟩)).done, ?_⟩
        simp [hen, hps]

/-- Claim C5: `compile_action` returns Not Bound Action iff the action is
not marked bound; returns No Binding Parameter iff it is bound and
declares no parameters; and when it is bound with a binding parameter
whose type has not been compiled as a complex type in any visible frame,
it returns the empty fragment — contributing no entry to the action map
and raising no error. -/
theorem compile_action_binding_rules :
    (∀ (f : Nat) (a : ActionDecl) (R : Resolver) (st : Stack),
      compile_action f a R st = .error .notBoundAction ↔ a.is_bound = false) ∧
    (∀ (f : Nat) (a : ActionDecl) (R : Resolver) (st : Stack),
      compile_action f a R st = .error .noBindingParameterForAction
        ↔ (a.is_bound = true ∧ a.parameters = [])) ∧
    (∀ (f : Nat) (a : ActionDecl) (R : Resolver) (st : Stack)
        (bp : ParamDecl) (rest : List ParamDecl),
      a.is_bound = true → a.parameters = bp :: rest →
      st.complex_type_info bp.ptype.qualified_type_name = none →
      (compile_action f a R st = .ok Compiled.empty ∧
        ∀ q : QualifiedName, Compiled.empty.actions q = none)) := by
  refine ⟨?_, ?_, ?_⟩
  · intro f a R st
    constructor
    · intro h
      by_contra hb'
      have hb : a.is_bound = true := by
        cases hab : a.is_bound
        · exact absurd hab hb'
        · rfl
      rcases hp : a.parameters with _ | ⟨bp, rest⟩
      · rw [compile_action, if_neg (by simp [hb]), hp] at h
        simp at h
      · by_cases hci : st.complex_type_info bp.ptype.qualified_type_name = none
        · rw [compile_action, if_neg (by simp [hb]), hp] at h
          simp only [] at h
          rw [if_pos hci] at h
          simp at h
        · rcases compile_action_tail_shape f a R st bp rest hb hp hci with
            ⟨c, hc⟩ | ⟨e, hc⟩ | ⟨n, e, hc⟩ <;> rw [hc] at h <;> simp at h
    · intro hb
      rw [compile_action, if_pos hb]
  · intro f a R st
    constructor
    · intro h
      cases hab : a.is_bound
      · rw [compile_action, if_pos hab] at h
        simp at h
      · rcases hp : a.parameters with _ | ⟨bp, rest⟩
        · exact ⟨rfl, rfl⟩
        · by_cases hci : st.complex_type_info bp.ptype.qualified_type_name = none
          · rw [compile_action, if_neg (by simp [hab]), hp] at h
            simp only [] at h
            rw [if_pos hci] at h
            simp at h
          · rcases compile_action_tail_shape f a R st bp rest hab hp hci with
              ⟨c, hc⟩ | ⟨e, hc⟩ | ⟨n, e, hc⟩ <;> rw [hc] at h <;> simp at h
    · rintro ⟨hb, hp⟩
      rw [compile_action, if_neg (by simp [hb]), hp]
  · intro f a R st bp rest hb hp hci
    refine ⟨?_, fun _ => rfl⟩
    rw [compile_action, if_neg (by simp [hb]), hp]
    simp only []
    rw [if_pos hci]

/-- Closed instance discharging the hypotheses of
`compile_action_binding_rules`: an unbound action is rejected. -/
theorem compile_action_binding_rules_witness :
    compile_action 1 ⟨"Reset", false, [], none⟩
        ⟨fun _ => none, fun _ => none, fun _ _ => .error .outOfFuel⟩ Stack.root
      = .error .notBoundAction :=
  (compile_action_binding_rules.1 1 ⟨"Reset", false, [], none⟩
    ⟨fun _ => none, fun _ => none, fun _ _ => .error .outOfFuel⟩ Stack.root).mpr rfl

/-! Invariants of the compile run: availability on a frame chain, key
membership, entity-compile events, and the fragment invariant that every
resolver preserves (claims C2 and C3). -/

/-- Entity availability on a frame chain: the name is some frame's marker
or a key of some frame's accumulated entity map (what
`Stack::contains_entity` reads). -/
def availE (l : List Frame) (q : QualifiedName) : Prop :=
  ∃ fr ∈ l, fr.entity_type = some q ∨ (fr.current.entity_types q).isSome = true

/-- Entity-key membership in a fragment. -/
def EKey (c : Compiled) (q : QualifiedName) : Prop :=
  (c.entity_types q).isSome = true

/-- Non-entity key membership in a fragment (complex type, type
definition or enum). -/
def TKey (c : Compiled) (q : QualifiedName) : Prop :=
  (c.complex_types q).isSome = true ∨ (c.type_definitions q).isSome = true
    ∨ (c.enum_types q).isSome = true

/-- The entity-compile events of a trace. -/
def entEvents : Log → List QualifiedName
  | [] => []
  | .entity q :: rest => q :: entEvents rest
  | .complexT _ :: rest => entEvents rest
  | .typeDef _ :: rest => entEvents rest
  | .enumT _ :: rest => entEvents rest

/-- The invariant a resolver's returned fragment satisfies, relative to
the frame chain it was called on: every entity reference (base or
navigation target) of every record in the fragment is a key of the
fragment or available on the chain, every complex base is a non-entity
key of the fragment itself, and the entity-compile events are distinct,
fresh for the chain, and all end up as entity keys of the fragment. -/
structure FragOk (st : List Frame) (c : Compiled) (log : Log) : Prop where
  closedE : ∀ q et, c.entity_types q = some et →
    (∀ b, et.base = some b → EKey c b ∨ availE st b) ∧
    (∀ nv ∈ et.properties.nav_properties, EKey c nv.target ∨ availE st nv.target)
  closedC : ∀ q ct, c.complex_types q = some ct →
    (∀ b, ct.base = some b → TKey c b) ∧
    (∀ nv ∈ ct.properties.nav_properties, EKey c nv.target ∨ availE st nv.target)
  evNodup : (entEvents log).Nodup
  evFresh : ∀ q ∈ entEvents log, ¬ availE st q
  evKeys : ∀ q ∈ entEvents log, EKey c q

theorem EKey_merge (a b : Compiled) (q : QualifiedName) :
    EKey (a.merge b) q ↔ EKey a q ∨ EKey b q := by
  simp [EKey, Compiled.merge_entity_types, extendMap_isSome, Bool.or_eq_true]

theorem EKey_empty (q : QualifiedName) : ¬ EKey Compiled.empty q := by
  simp [EKey, Compiled.empty, emptyMap]

theorem EKey_newET (v : CompiledEntityType) (q : QualifiedName) :
    EKey (Compiled.new_entity_type v) q ↔ q = v.name := by
  simp [EKey, Compiled.new_entity_type, singletonMap, Compiled.empty]

theorem TKey_merge (a b : Compiled) (q : QualifiedName) :
    TKey (a.merge b) q ↔ TKey a q ∨ TKey b q := by
  simp only [TKey, Compiled.merge]
  simp [extendMap_isSome, Bool.or_eq_true]
  tauto

theorem TKey_empty (q : QualifiedName) : ¬ TKey Compiled.empty q := by
  simp [TKey, Compiled.empty, emptyMap]

theorem TKey_newCT (v : CompiledComplexType) (q : QualifiedName) :
    q = v.name → TKey (Compiled.new_complex_type v) q := by
  intro h
  subst h
  simp [TKey, Compiled.new_complex_type, Compiled.empty, singletonMap, emptyMap]

theorem TKey_newTD (v : CompiledTypeDefinition) (q : QualifiedName) :
    q = v.name → TKey (Compiled.new_type_definition v) q := by
  intro h
  subst h
  simp [TKey, Compiled.new_type_definition, Compiled.empty, singletonMap, emptyMap]

theorem TKey_newEN (v : CompiledEnumType) (q : QualifiedName) :
    q = v.name → TKey (Compiled.new_enum_type v) q := by
  intro h
  subst h
  simp [TKey, Compiled.new_enum_type, Compiled.empty, singletonMap, emptyMap]

theorem newET_lookup (v : CompiledEntityType) (q : QualifiedName) :
    (Compiled.new_entity_type v).entity_types q
      = if q = v.name then some v else none := rfl

theorem newCT_entity (v : CompiledComplexType) (q : QualifiedName) :
    (Compiled.new_complex_type v).entity_types q = none := rfl

theorem newTD_entity (v : CompiledTypeDefinition) (q : QualifiedName) :
    (Compiled.new_type_definition v).entity_types q = none := rfl

theorem newEN_entity (v : CompiledEnumType) (q : QualifiedName) :
    (Compiled.new_enum_type v).entity_types q = none := rfl

theorem newET_complex (v : CompiledEntityType) (q : QualifiedName) :
    (Compiled.new_entity_type v).complex_types q = none := rfl

theorem newTD_complex (v : CompiledTypeDefinition) (q : QualifiedName) :
    (Compiled.new_type_definition v).complex_types q = none := rfl

theorem newEN_complex (v : CompiledEnumType) (q : QualifiedName) :
    (Compiled.new_enum_type v).complex_types q = none := rfl

theorem newCT_lookup (v : CompiledComplexType) (q : QualifiedName) :
    (Compiled.new_complex_type v).complex_types q
      = if q = v.name then some v else none := rfl

theorem Compiled.merge_complex_types (a b : Compiled) (q : QualifiedName) :
    (a.merge b).complex_types q
      = extendMap a.complex_types b.complex_types q := rfl

theorem extendMap_of_none {K V : Type} (a b : K → Option V) (k : K)
    (h : b k = none) : extendMap a b k = a k := by
  simp [extendMap, h]

theorem extendMap_of_some {K V : Type} (a b : K → Option V) (k : K) (v : V)
    (h : b k = some v) : extendMap a b k = some v := by
  simp [extendMap, h]

theorem empty_entity_lookup (q : QualifiedName) :
    Compiled.empty.entity_types q = none := rfl

theorem empty_complex_lookup (q : QualifiedName) :
    Compiled.empty.complex_types q = none := rfl

theorem availE_nil (q : QualifiedName) : ¬ availE [] q := by
  simp [availE]

theorem availE_cons (fr : Frame) (l : List Frame) (q : QualifiedName) :
    availE (fr :: l) q
      ↔ (fr.entity_type = some q ∨ EKey fr.current q) ∨ availE l q := by
  simp [availE, EKey]

theorem availE_consEmpty (l : List Frame) (q : QualifiedName) :
    availE (⟨none, Compiled.empty⟩ :: l) q ↔ availE l q := by
  rw [availE_cons]
  simp [EKey, Compiled.empty, emptyMap]

theorem availE_consMarker (m : QualifiedName) (cur : Compiled) (l : List Frame)
    (q : QualifiedName) :
    availE (⟨some m, cur⟩ :: l) q ↔ q = m ∨ EKey cur q ∨ availE l q := by
  rw [availE_cons]
  simp [eq_comm]
  tauto

theorem availE_consCur (cur : Compiled) (l : List Frame) (q : QualifiedName) :
    availE (⟨none, cur⟩ :: l) q ↔ EKey cur q ∨ availE l q := by
  rw [availE_cons]
  simp

theorem containsEntityFrames_iff (l : List Frame) (q : QualifiedName) :
    containsEntityFrames l q = true ↔ availE l q := by
  induction l with
  | nil => simp [containsEntityFrames, availE]
  | cons fr rest ih =>
    rw [containsEntityFrames, availE_cons]
    simp [Bool.or_eq_true, ih, EKey]
    tauto

theorem entEvents_append (la lb : Log) :
    entEvents (la ++ lb) = entEvents la ++ entEvents lb := by
  induction la with
  | nil => rfl
  | cons e rest ih => cases e <;> simp [entEvents, ih]

/-- Composing two fragments produced in sequence: the second was produced
on a chain whose availability is exactly the first chain's availability
plus the first fragment's entity keys. -/
theorem FragOk.compose {st st' : List Frame} {a b : Compiled} {la lb : Log}
    (ha : FragOk st a la) (hb : FragOk st' b lb)
    (hav : ∀ q, availE st' q ↔ availE st q ∨ EKey a q) :
    FragOk st (a.merge b) (la ++ lb) := by
  refine ⟨?_, ?_, ?_, ?_, ?_⟩
  · intro q et h
    rw [Compiled.merge_entity_types] at h
    rcases hbq : b.entity_types q with _ | etb
    · rw [extendMap_of_none _ _ _ hbq] at h
      obtain ⟨h1, h2⟩ := ha.closedE q et h
      constructor
      · intro bb hbb
        rcases h1 bb hbb with h' | h'
        · exact Or.inl ((EKey_merge a b bb).mpr (Or.inl h'))
        · exact Or.inr h'
      · intro nv hnv
        rcases h2 nv hnv with h' | h'
        · exact Or.inl ((EKey_merge a b _).mpr (Or.inl h'))
        · exact Or.inr h'
    · rw [extendMap_of_some _ _ _ _ hbq] at h
      simp only [Option.some.injEq] at h
      subst h
      obtain ⟨h1, h2⟩ := hb.closedE q etb hbq
      constructor
      · intro bb hbb
        rcases h1 bb hbb with h' | h'
        · exact Or.inl ((EKey_merge a b bb).mpr (Or.inr h'))
        · rcases (hav bb).mp h' with h'' | h''
          · exact Or.inr h''
          · exact Or.inl ((EKey_merge a b bb).mpr (Or.inl h''))
      · intro nv hnv
        rcases h2 nv hnv with h' | h'
        · exact Or.inl ((EKey_merge a b _).mpr (Or.inr h'))
        · rcases (hav _).mp h' with h'' | h''
          · exact Or.inr h''
          · exact Or.inl ((EKey_merge a b _).mpr (Or.inl h''))
  · intro q ct h
    rw [Compiled.merge_complex_types] at h
    rcases hbq : b.complex_types q with _ | ctb
    · rw [extendMap_of_none _ _ _ hbq] at h
      obtain ⟨h1, h2⟩ := ha.closedC q ct h
      constructor
      · intro bb hbb
        exact (TKey_merge a b bb).mpr (Or.inl (h1 bb hbb))
      · intro nv hnv
        rcases h2 nv hnv with h' | h'
        · exact Or.inl ((EKey_merge a b _).mpr (Or.inl h'))
        · exact Or.inr h'
    · rw [extendMap_of_some _ _ _ _ hbq] at h
      simp only [Option.some.injEq] at h
      subst h
      obtain ⟨h1, h2⟩ := hb.closedC q ctb hbq
      constructor
      · intro bb hbb
        exact (TKey_merge a b bb).mpr (Or.inr (h1 bb hbb))
      · intro nv hnv
        rcases h2 nv hnv with h' | h'
        · exact Or.inl ((EKey_merge a b _).mpr (Or.inr h'))
        · rcases (hav _).mp h' with h'' | h''
          · exact Or.inr h''
          · exact Or.inl ((EKey_merge a b _).mpr (Or.inl h''))
  · rw [entEvents_append, List.nodup_append]
    refine ⟨ha.evNodup, hb.evNodup, ?_⟩
    intro q hqa hqb
    exact hb.evFresh q hqb ((hav q).mpr (Or.inr (ha.evKeys q hqa)))
  · intro q hq
    rw [entEvents_append, List.mem_append] at hq
    rcases hq with hq | hq
    · exact ha.evFresh q hq
    · intro hcon
      exact hb.evFresh q hq ((hav q).mpr (Or.inl hcon))
  · intro q hq
    rw [entEvents_append, List.mem_append] at hq
    rcases hq with hq | hq
    · exact (EKey_merge a b q).mpr (Or.inl (ha.evKeys q hq))
    · exact (EKey_merge a b q).mpr (Or.inr (hb.evKeys q hq))

/-- The empty fragment with no events satisfies the invariant on any
chain. -/
theorem FragOk.empty (st : List Frame) : FragOk st Compiled.empty [] := by
  refine ⟨?_, ?_, ?_, ?_, ?_⟩ <;>
    simp [empty_entity_lookup, empty_complex_lookup, entEvents, List.Nodup]

/-- Weakening: a fragment invariant transfers to a chain with the same
availability. -/
theorem FragOk.congr_avail {st st' : List Frame} {c : Compiled} {log : Log}
    (h : FragOk st c log) (hav : ∀ q, availE st' q ↔ availE st q) :
    FragOk st' c log := by
  refine ⟨?_, ?_, h.evNodup, ?_, h.evKeys⟩
  · intro q et hq
    obtain ⟨h1, h2⟩ := h.closedE q et hq
    exact ⟨fun b hb => (h1 b hb).imp id fun h' => (hav b).mpr h',
      fun nv hnv => (h2 nv hnv).imp id fun h' => (hav _).mpr h'⟩
  · intro q ct hq
    obtain ⟨h1, h2⟩ := h.closedC q ct hq
    exact ⟨h1, fun nv hnv => (h2 nv hnv).imp id fun h' => (hav _).mpr h'⟩
  · intro q hq hcon
    exact h.evFresh q hq ((hav q).mp hcon)

theorem Compiled.empty_merge (c : Compiled) : Compiled.empty.merge c = c := by
  refine Compiled.ext ?_ ?_ ?_ ?_ ?_ ?_
  · funext k
    simp only [Compiled.merge, Compiled.empty, extendMap, emptyMap]
    cases c.complex_types k <;> rfl
  · funext k
    simp only [Compiled.merge, Compiled.empty, extendMap, emptyMap]
    cases c.entity_types k <;> rfl
  · funext k
    simp only [Compiled.merge, Compiled.empty, extendMap, emptyMap]
    cases c.type_definitions k <;> rfl
  · funext k
    simp only [Compiled.merge, Compiled.empty, extendMap, emptyMap]
    cases c.enum_types k <;> rfl
  · funext k
    simp only [Compiled.merge, Compiled.empty, emptyMap]
    cases c.actions k <;> rfl
  · funext k
    simp [Compiled.merge, Compiled.empty]

theorem Compiled.merge_empty (c : Compiled) : c.merge Compiled.empty = c := by
  refine Compiled.ext ?_ ?_ ?_ ?_ ?_ ?_
  · funext k
    simp only [Compiled.merge, Compiled.empty, extendMap, emptyMap]
  · funext k
    simp only [Compiled.merge, Compiled.empty, extendMap, emptyMap]
  · funext k
    simp only [Compiled.merge, Compiled.empty, extendMap, emptyMap]
  · funext k
    simp only [Compiled.merge, Compiled.empty, extendMap, emptyMap]
  · funext k
    simp only [Compiled.merge, Compiled.empty, emptyMap]
  · funext k
    simp [Compiled.merge, Compiled.empty]

theorem avail_merge_frame (et0 : Option QualifiedName) (cur cp : Compiled)
    (l : List Frame) (x : QualifiedName) :
    availE (⟨et0, cur.merge cp⟩ :: l) x
      ↔ availE (⟨et0, cur⟩ :: l) x ∨ EKey cp x := by
  rw [availE_cons, availE_cons, EKey_merge]
  tauto

theorem avail_props_chain (cB : Compiled) (M : List Frame) (x : QualifiedName) :
    availE (⟨none, Compiled.empty⟩ :: ⟨none, Compiled.empty.merge cB⟩ :: M) x
      ↔ availE M x ∨ EKey cB x := by
  rw [availE_consEmpty, availE_consCur, Compiled.empty_merge]
  tauto

theorem navTarget_if (expand : Bool) (d : NavPropertyData) :
    (if expand then CompiledNavProperty.expandable d
     else CompiledNavProperty.reference d).target
      = d.ptype.qualified_type_name := by
  cases expand <;> rfl

theorem navName_if (expand : Bool) (d : NavPropertyData) :
    (if expand then CompiledNavProperty.expandable d
     else CompiledNavProperty.reference d).name = d.name := by
  cases expand <;> rfl

/-- Appending a freshly compiled complex-type record to an accumulated
fragment preserves the invariant, provided the record's base is a
non-entity key of the accumulator and its navigation targets are covered. -/
theorem FragOk.addComplex {st : List Frame} {acc : Compiled} {log : Log}
    (h : FragOk st acc log) (v : CompiledComplexType)
    (hbase : ∀ b, v.base = some b → TKey acc b)
    (hnavs : ∀ nv ∈ v.properties.nav_properties,
      EKey acc nv.target ∨ availE st nv.target) :
    FragOk st (acc.merge (Compiled.new_complex_type v)) log := by
  refine ⟨?_, ?_, h.evNodup, h.evFresh, ?_⟩
  · intro q et hq
    rw [Compiled.merge_entity_types,
      extendMap_of_none _ _ _ (newCT_entity v q)] at hq
    obtain ⟨h1, h2⟩ := h.closedE q et hq
    exact ⟨fun b hb => (h1 b hb).imp
        (fun h' => (EKey_merge _ _ _).mpr (Or.inl h')) id,
      fun nv hnv => (h2 nv hnv).imp
        (fun h' => (EKey_merge _ _ _).mpr (Or.inl h')) id⟩
  · intro q ct hq
    rw [Compiled.merge_complex_types] at hq
    rcases hvq : (Compiled.new_complex_type v).complex_types q with _ | ct'
    · rw [extendMap_of_none _ _ _ hvq] at hq
      obtain ⟨h1, h2⟩ := h.closedC q ct hq
      exact ⟨fun b hb => (TKey_merge _ _ _).mpr (Or.inl (h1 b hb)),
        fun nv hnv => (h2 nv hnv).imp
          (fun h' => (EKey_merge _ _ _).mpr (Or.inl h')) id⟩
    · rw [extendMap_of_some _ _ _ _ hvq] at hq
      rw [newCT_lookup] at hvq
      by_cases hqv : q = v.name
      · rw [if_pos hqv] at hvq
        cases hq
        cases hvq
        refine ⟨fun b hb => (TKey_merge _ _ _).mpr (Or.inl (hbase b hb)),
          fun nv hnv => (hnavs nv hnv).imp
            (fun h' => (EKey_merge _ _ _).mpr (Or.inl h')) id⟩
      · rw [if_neg hqv] at hvq
        cases hvq
  · intro q hq
    exact (EKey_merge _ _ _).mpr (Or.inl (h.evKeys q hq))

/-- Sealing an entity-type compile: the accumulated fragment was produced
under the marker frame for `q`; appending the entity's own record
discharges every reference to the marker and records the compile event. -/
theorem FragOk.sealEntity {st : List Frame} {q : QualifiedName}
    {acc : Compiled} {log : Log}
    (h : FragOk (⟨some q, Compiled.empty⟩ :: st) acc log)
    (hfresh : ¬ availE st q) (v : CompiledEntityType) (hname : v.name = q)
    (hbase : ∀ b, v.base = some b →
      EKey acc b ∨ availE (⟨some q, Compiled.empty⟩ :: st) b)
    (hnavs : ∀ nv ∈ v.properties.nav_properties,
      EKey acc nv.target ∨ availE (⟨some q, Compiled.empty⟩ :: st) nv.target) :
    FragOk st (acc.merge (Compiled.new_entity_type v))
      (Event.entity q :: log) := by
  have havm : ∀ x, availE (⟨some q, Compiled.empty⟩ :: st) x
      ↔ x = q ∨ availE st x := by
    intro x
    rw [availE_consMarker]
    simp [EKey, Compiled.empty, emptyMap]
  have hqmerge : EKey (acc.merge (Compiled.new_entity_type v)) q :=
    (EKey_merge _ _ _).mpr (Or.inr ((EKey_newET v q).mpr hname.symm))
  have hsubfresh : ∀ x ∈ entEvents log, ¬ availE st x ∧ x ≠ q := by
    intro x hx
    have := h.evFresh x hx
    rw [havm] at this
    push_neg at this
    exact ⟨this.2, this.1⟩
  refine ⟨?_, ?_, ?_, ?_, ?_⟩
  · intro q' et hq'
    rw [Compiled.merge_entity_types] at hq'
    rcases hvq : (Compiled.new_entity_type v).entity_types q' with _ | et'
    · rw [extendMap_of_none _ _ _ hvq] at hq'
      obtain ⟨h1, h2⟩ := h.closedE q' et hq'
      constructor
      · intro b hb
        rcases h1 b hb with h' | h'
        · exact Or.inl ((EKey_merge _ _ _).mpr (Or.inl h'))
        · rcases (havm b).mp h' with h'' | h''
          · subst h''
            exact Or.inl hqmerge
          · exact Or.inr h''
      · intro nv hnv
        rcases h2 nv hnv with h' | h'
        · exact Or.inl ((EKey_merge _ _ _).mpr (Or.inl h'))
        · rcases (havm _).mp h' with h'' | h''
          · rw [h'']
            exact Or.inl hqmerge
          · exact Or.inr h''
    · rw [extendMap_of_some _ _ _ _ hvq] at hq'
      cases hq'
      rw [newET_lookup] at hvq
      by_cases hqv : q' = v.name
      · rw [if_pos hqv] at hvq
        cases hvq
        constructor
        · intro b hb
          rcases hbase b hb with h' | h'
          · exact Or.inl ((EKey_merge _ _ _).mpr (Or.inl h'))
          · rcases (havm b).mp h' with h'' | h''
            · subst h''
              exact Or.inl hqmerge
            · exact Or.inr h''
        · intro nv hnv
          rcases hnavs nv hnv with h' | h'
          · exact Or.inl ((EKey_merge _ _ _).mpr (Or.inl h'))
          · rcases (havm _).mp h' with h'' | h''
            · rw [h'']
              exact Or.inl hqmerge
            · exact Or.inr h''
      · rw [if_neg hqv] at hvq
        cases hvq
  · intro q' ct hq'
    rw [Compiled.merge_complex_types,
      extendMap_of_none _ _ _ (newET_complex v q')] at hq'
    obtain ⟨h1, h2⟩ := h.closedC q' ct hq'
    constructor
    · intro b hb
      exact (TKey_merge _ _ _).mpr (Or.inl (h1 b hb))
    · intro nv hnv
      rcases h2 nv hnv with h' | h'
      · exact Or.inl ((EKey_merge _ _ _).mpr (Or.inl h'))
      · rcases (havm _).mp h' with h'' | h''
        · rw [h'']
          exact Or.inl hqmerge
        · exact Or.inr h''
  · show (entEvents (Event.entity q :: log)).Nodup
    have : entEvents (Event.entity q :: log) = q :: entEvents log := rfl
    rw [this, List.nodup_cons]
    exact ⟨fun hmem => (hsubfresh q hmem).2 rfl, h.evNodup⟩
  · intro x hx
    have : entEvents (Event.entity q :: log) = q :: entEvents log := rfl
    rw [this, List.mem_cons] at hx
    rcases hx with hx | hx
    · subst hx
      exact hfresh
    · exact (hsubfresh x hx).1
  · intro x hx
    have : entEvents (Event.entity q :: log) = q :: entEvents log := rfl
    rw [this, List.mem_cons] at hx
    rcases hx with hx | hx
    · subst hx
      exact hqmerge
    · exact (EKey_merge _ _ _).mpr (Or.inl (h.evKeys x hx))

/-- Closed instance of `cycle_compilation_succeeds` at concrete names. -/
theorem cycle_compilation_succeeds_witness :
    (∃ c log, SchemaBundle.compile (0 + 40) (selfRefBundle ["Example"] "A") ["S"] = .ok (c, log)
      ∧ (c.entity_types ⟨⟨["Example"]⟩, "A"⟩).isSome = true) ∧
    (∃ c log, SchemaBundle.compile (0 + 40) (mutualBundle ["Example"] "A" "B") ["S"] = .ok (c, log)
      ∧ (c.entity_types ⟨⟨["Example"]⟩, "A"⟩).isSome = true
      ∧ (c.entity_types ⟨⟨["Example"]⟩, "B"⟩).isSome = true) :=
  cycle_compilation_succeeds 0 ["Example"] "A" "B" (by decide)

end NvRedfish


namespace NvRedfish

theorem compile_type_zero (q : QualifiedName) (R : Resolver) (st : Stack) :
    compile_type 0 q R st = .error .outOfFuel := rfl

theorem compileET_zero (q : QualifiedName) (et : EntityTypeDecl) (R : Resolver)
    (st : Stack) :
    CompiledEntityType.compile 0 q et R st = .error .outOfFuel := rfl

theorem compileProps_zero (ps : List PropDecl) (R : Resolver) (st : Stack) :
    CompiledProperties.compile 0 ps R st = .error .outOfFuel := rfl

/-- Invariance of a run's log under event-preserving relabelling. -/
theorem FragOk.congr_log {st : List Frame} {c : Compiled} {l1 l2 : Log}
    (h : FragOk st c l1) (he : entEvents l2 = entEvents l1) :
    FragOk st c l2 := by
  refine ⟨h.closedE, h.closedC, ?_, ?_, ?_⟩ <;> rw [he]
  · exact h.evNodup
  · exact h.evFresh
  · exact h.evKeys

set_option maxHeartbeats 2000000 in
theorem interp_invariant : ∀ f : Nat,
    (∀ (tn : TypeName) (R : Resolver) (st : Stack) (c : Compiled) (log : Log),
      ensure_type f tn R st = .ok (c, log) → FragOk st.frames c log) ∧
    (∀ (q : QualifiedName) (R : Resolver) (st : Stack) (c : Compiled) (log : Log),
      compile_type f q R st = .ok (c, log) → FragOk st.frames c log ∧ TKey c q) ∧
    (∀ (q : QualifiedName) (R : Resolver) (st : Stack) (c : Compiled) (log : Log),
      CompiledEntityType.ensure f q R st = .ok (c, log) →
        FragOk st.frames c log ∧ (EKey c q ∨ availE st.frames q)) ∧
    (∀ (q : QualifiedName) (et : EntityTypeDecl) (R : Resolver) (st : Stack)
        (c : Compiled) (log : Log), ¬ availE st.frames q →
      CompiledEntityType.compile f q et R st = .ok (c, log) →
        FragOk st.frames c log ∧ EKey c q) ∧
    (∀ (ps : List PropDecl) (R : Resolver) (fr : Frame) (l : List Frame)
        (c : Compiled) (props : CompiledProperties) (log : Log),
      CompiledProperties.compile f ps R ⟨fr :: l⟩ = .ok (c, props, log) →
        ∃ d, c = fr.current.merge d ∧ FragOk (fr :: l) d log ∧
          ∀ nv ∈ props.nav_properties,
            EKey d nv.target ∨ availE (fr :: l) nv.target) := by
  intro f
  induction f with
  | zero =>
    refine ⟨?_, ?_, ?_, ?_, ?_⟩
    · intro tn R st c log h
      rw [ensure_type_zero] at h
      simp at h
    · intro q R st c log h
      rw [compile_type_zero] at h
      simp at h
    · intro q R st c log h
      rw [ensureET_zero] at h
      simp at h
    · intro q et R st c log _ h
      rw [compileET_zero] at h
      simp at h
    · intro ps R fr l c props log h
      rw [compileProps_zero] at h
      simp at h
  | succ f ih =>
    obtain ⟨ihET, ihCT, ihEE, ihCE, ihPP⟩ := ih
    refine ⟨?_, ?_, ?_, ?_, ?_⟩
    -- ensure_type: short-circuit or defer to compile_type
    · intro tn R st c log h
      rw [ensure_type_succ] at h
      split at h
      · injection h with h1
        injection h1 with h2 h3
        subst h2
        subst h3
        exact FragOk.empty _
      · exact (ihCT _ _ _ _ _ h).1
    -- compile_type: dispatch on the declaration kind
    · intro q R st c log h
      rw [compile_type_succ] at h
      rcases hft : R.find_type q with _ | d
      · simp [hft] at h
      · cases d with
        | typeDefinition td =>
          by_cases hsimple : is_simple_type td.underlying_type
          · simp only [hft] at h
            rw [if_pos hsimple] at h
            injection h with h1
            injection h1 with h2 h3
            subst h2
            subst h3
            refine ⟨?_, TKey_newTD _ _ rfl⟩
            refine ⟨?_, ?_, ?_, ?_, ?_⟩ <;>
              simp [newTD_entity, newTD_complex, entEvents]
          · simp only [hft] at h
            rw [if_neg hsimple] at h
            simp at h
        | enumType en =>
          simp only [hft] at h
          injection h with h1
          injection h1 with h2 h3
          subst h2
          subst h3
          refine ⟨?_, TKey_newEN _ _ rfl⟩
          refine ⟨?_, ?_, ?_, ?_, ?_⟩ <;>
            simp [newEN_entity, newEN_complex, entEvents]
        | complexType ct =>
          rcases hbt : ct.base_type with _ | b
          · simp only [hft, hbt] at h
            rcases hpp : CompiledProperties.compile f ct.properties R
                ((st.new_frame).merge Compiled.empty).new_frame
              with e | ⟨cP, props, logP⟩
            · simp [hpp] at h
            · simp only [hpp] at h
              injection h with h1
              injection h1 with h2 h3
              subst h2
              subst h3
              obtain ⟨d, hcPd, hdOk, hdnavs⟩ :=
                ihPP ct.properties R ⟨none, Compiled.empty⟩
                  (⟨none, Compiled.empty.merge Compiled.empty⟩ :: st.frames)
                  cP props logP hpp
              have hcP : cP = d := by
                rw [hcPd]
                exact Compiled.empty_merge d
              have hav0 : ∀ x, availE st.frames x ↔
                  availE (⟨none, Compiled.empty⟩ ::
                    ⟨none, Compiled.empty.merge Compiled.empty⟩ :: st.frames) x := by
                intro x
                rw [avail_props_chain Compiled.empty st.frames x]
                simp [EKey, Compiled.empty, emptyMap]
              have hdOk' : FragOk st.frames d logP := hdOk.congr_avail hav0
              have hnavs0 : ∀ nv ∈ props.nav_properties,
                  EKey d nv.target ∨ availE st.frames nv.target := by
                intro nv hnv
                rcases hdnavs nv hnv with h' | h'
                · exact Or.inl h'
                · rw [avail_props_chain Compiled.empty st.frames] at h'
                  rcases h' with h' | h'
                  · exact Or.inr h'
                  · exact absurd h' (EKey_empty _)
              constructor
              · show FragOk st.frames
                  (((Compiled.empty.merge Compiled.empty).merge cP).merge
                    (Compiled.new_complex_type
                      ⟨q, none, props, CompiledOData.new false none⟩))
                  (Event.complexT q :: ([] ++ logP))
                rw [hcP, Compiled.empty_merge, Compiled.empty_merge]
                exact (hdOk'.addComplex
                  ⟨q, none, props, CompiledOData.new false none⟩
                  (fun b0 hb => nomatch hb) hnavs0).congr_log rfl
              · show TKey
                  (((Compiled.empty.merge Compiled.empty).merge cP).merge
                    (Compiled.new_complex_type
                      ⟨q, none, props, CompiledOData.new false none⟩)) q
                rw [hcP, Compiled.empty_merge, Compiled.empty_merge]
                exact (TKey_merge _ _ _).mpr (Or.inr (TKey_newCT _ _ rfl))
          · simp only [hft, hbt] at h
            rcases hbc : compile_type f b R st with e | ⟨cB, logB⟩
            · simp [hbc] at h
            · simp only [hbc] at h
              rcases hpp : CompiledProperties.compile f ct.properties R
                  ((st.new_frame).merge cB).new_frame
                with e | ⟨cP, props, logP⟩
              · simp [hpp] at h
              · simp only [hpp] at h
                injection h with h1
                injection h1 with h2 h3
                subst h2
                subst h3
                obtain ⟨hBOk, hBkey⟩ := ihCT b R st cB logB hbc
                obtain ⟨d, hcPd, hdOk, hdnavs⟩ :=
                  ihPP ct.properties R ⟨none, Compiled.empty⟩
                    (⟨none, Compiled.empty.merge cB⟩ :: st.frames)
                    cP props logP hpp
                have hcP : cP = d := by
                  rw [hcPd]
                  exact Compiled.empty_merge d
                have hcomp : FragOk st.frames (cB.merge d) (logB ++ logP) :=
                  hBOk.compose hdOk (avail_props_chain cB st.frames)
                have hnavs' : ∀ nv ∈ props.nav_properties,
                    EKey (cB.merge d) nv.target ∨ availE st.frames nv.target := by
                  intro nv hnv
                  rcases hdnavs nv hnv with h' | h'
                  · exact Or.inl ((EKey_merge _ _ _).mpr (Or.inr h'))
                  · rw [avail_props_chain cB st.frames] at h'
                    rcases h' with h' | h'
                    · exact Or.inr h'
                    · exact Or.inl ((EKey_merge _ _ _).mpr (Or.inl h'))
                have hbase' : ∀ b0, (some b : Option QualifiedName) = some b0 →
                    TKey (cB.merge d) b0 := by
                  intro b0 hb
                  cases hb
                  exact (TKey_merge _ _ _).mpr (Or.inl hBkey)
                constructor
                · show FragOk st.frames
                    (((Compiled.empty.merge cB).merge cP).merge
                      (Compiled.new_complex_type
                        ⟨q, some b, props, CompiledOData.new false none⟩))
                    (Event.complexT q :: (logB ++ logP))
                  rw [hcP, Compiled.empty_merge]
                  exact (hcomp.addComplex
                    ⟨q, some b, props, CompiledOData.new false none⟩
                    hbase' hnavs').congr_log rfl
                · show TKey
                    (((Compiled.empty.merge cB).merge cP).merge
                      (Compiled.new_complex_type
                        ⟨q, some b, props, CompiledOData.new false none⟩)) q
                  rw [hcP, Compiled.empty_merge]
                  exact (TKey_merge _ _ _).mpr (Or.inr (TKey_newCT _ _ rfl))
    -- entity-type ensure: memo lookup on the frame chain, else compile
    · intro q R st c log h
      rw [ensureET_succ] at h
      by_cases hcond : st.contains_entity q = true
      · rw [if_pos hcond] at h
        injection h with h1
        injection h1 with h2 h3
        subst h2
        subst h3
        exact ⟨FragOk.empty _,
          Or.inr ((containsEntityFrames_iff st.frames q).mp hcond)⟩
      · rw [if_neg hcond] at h
        rcases hfe : R.find_entity_type q with _ | et
        · simp [hfe] at h
        · simp only [hfe] at h
          rcases hce : CompiledEntityType.compile f q et R st with e | ⟨c0, l0⟩
          · simp [hce] at h
          · simp only [hce] at h
            injection h with h1
            injection h1 with h2 h3
            subst h2
            subst h3
            have hfresh : ¬ availE st.frames q := fun hav =>
              hcond ((containsEntityFrames_iff st.frames q).mpr hav)
            obtain ⟨hOk, hKey⟩ := ihCE q et R st c0 l0 hfresh hce
            exact ⟨hOk, Or.inl hKey⟩
    -- entity-type compile: marker frame, base, properties, seal
    · intro q et R st c log hfresh h
      rw [compileET_succ] at h
      rcases hbt : et.base_type with _ | b
      · simp only [hbt] at h
        rcases hpp : CompiledProperties.compile f et.properties R
            ((((st.new_frame).with_enitity_type q).new_frame).merge
              Compiled.empty).new_frame
          with e | ⟨cP, props, logP⟩
        · simp [hpp] at h
        · simp only [hpp] at h
          injection h with h1
          injection h1 with h2 h3
          subst h2
          subst h3
          obtain ⟨d, hcPd, hdOk, hdnavs⟩ :=
            ihPP et.properties R ⟨none, Compiled.empty⟩
              (⟨none, Compiled.empty.merge Compiled.empty⟩ ::
                ⟨some q, Compiled.empty⟩ :: st.frames)
              cP props logP hpp
          have hcP : cP = d := by
            rw [hcPd]
            exact Compiled.empty_merge d
          have hav0 : ∀ x, availE (⟨some q, Compiled.empty⟩ :: st.frames) x ↔
              availE (⟨none, Compiled.empty⟩ ::
                ⟨none, Compiled.empty.merge Compiled.empty⟩ ::
                ⟨some q, Compiled.empty⟩ :: st.frames) x := by
            intro x
            rw [avail_props_chain Compiled.empty
              (⟨some q, Compiled.empty⟩ :: st.frames) x]
            simp [EKey, Compiled.empty, emptyMap]
          have hdOkM : FragOk (⟨some q, Compiled.empty⟩ :: st.frames) d logP :=
            hdOk.congr_avail hav0
          have hnavs0 : ∀ nv ∈ props.nav_properties, EKey d nv.target ∨
              availE (⟨some q, Compiled.empty⟩ :: st.frames) nv.target := by
            intro nv hnv
            rcases hdnavs nv hnv with h' | h'
            · exact Or.inl h'
            · rw [avail_props_chain Compiled.empty
                (⟨some q, Compiled.empty⟩ :: st.frames)] at h'
              rcases h' with h' | h'
              · exact Or.inr h'
              · exact absurd h' (EKey_empty _)
          constructor
          · show FragOk st.frames
              (((Compiled.empty.merge Compiled.empty).merge cP).merge
                (Compiled.new_entity_type
                  ⟨q, none, et.key, props, CompiledOData.new true et.insertable⟩))
              (Event.entity q :: ([] ++ logP))
            rw [hcP, Compiled.empty_merge, Compiled.empty_merge]
            exact FragOk.sealEntity hdOkM hfresh
              ⟨q, none, et.key, props, CompiledOData.new true et.insertable⟩
              rfl (fun b0 hb => nomatch hb) hnavs0
          · show EKey
              (((Compiled.empty.merge Compiled.empty).merge cP).merge
                (Compiled.new_entity_type
                  ⟨q, none, et.key, props,
                    CompiledOData.new true et.insertable⟩)) q
            rw [hcP, Compiled.empty_merge, Compiled.empty_merge]
            exact (EKey_merge _ _ _).mpr (Or.inr ((EKey_newET _ q).mpr rfl))
      · simp only [hbt] at h
        rcases hbe : CompiledEntityType.ensure f b R
            ((st.new_frame).with_enitity_type q) with e | ⟨cB, logB⟩
        · simp [hbe] at h
        · simp only [hbe] at h
          rcases hpp : CompiledProperties.compile f et.properties R
              ((((st.new_frame).with_enitity_type q).new_frame).merge
                cB).new_frame
            with e | ⟨cP, props, logP⟩
          · simp [hpp] at h
          · simp only [hpp] at h
            injection h with h1
            injection h1 with h2 h3
            subst h2
            subst h3
            obtain ⟨hBOk, hBav⟩ :=
              ihEE b R ((st.new_frame).with_enitity_type q) cB logB hbe
            have hBOk' : FragOk (⟨some q, Compiled.empty⟩ :: st.frames)
                cB logB := hBOk
            have hBav' : EKey cB b ∨
                availE (⟨some q, Compiled.empty⟩ :: st.frames) b := hBav
            obtain ⟨d, hcPd, hdOk, hdnavs⟩ :=
              ihPP et.properties R ⟨none, Compiled.empty⟩
                (⟨none, Compiled.empty.merge cB⟩ ::
                  ⟨some q, Compiled.empty⟩ :: st.frames)
                cP props logP hpp
            have hcP : cP = d := by
              rw [hcPd]
              exact Compiled.empty_merge d
            have hcomp : FragOk (⟨some q, Compiled.empty⟩ :: st.frames)
                (cB.merge d) (logB ++ logP) :=
              hBOk'.compose hdOk
                (avail_props_chain cB (⟨some q, Compiled.empty⟩ :: st.frames))
            have hbase' : ∀ b0, (some b : Option QualifiedName) = some b0 →
                EKey (cB.merge d) b0 ∨
                  availE (⟨some q, Compiled.empty⟩ :: st.frames) b0 := by
              intro b0 hb
              cases hb
              rcases hBav' with h' | h'
              · exact Or.inl ((EKey_merge _ _ _).mpr (Or.inl h'))
              · exact Or.inr h'
            have hnavs' : ∀ nv ∈ props.nav_properties,
                EKey (cB.merge d) nv.target ∨
                  availE (⟨some q, Compiled.empty⟩ :: st.frames) nv.target := by
              intro nv hnv
              rcases hdnavs nv hnv with h' | h'
              · exact Or.inl ((EKey_merge _ _ _).mpr (Or.inr h'))
              · rw [avail_props_chain cB
                  (⟨some q, Compiled.empty⟩ :: st.frames)] at h'
                rcases h' with h' | h'
                · exact Or.inr h'
                · exact Or.inl ((EKey_merge _ _ _).mpr (Or.inl h'))
            constructor
            · show FragOk st.frames
                (((Compiled.empty.merge cB).merge cP).merge
                  (Compiled.new_entity_type
                    ⟨q, some b, et.key, props,
                      CompiledOData.new true et.insertable⟩))
                (Event.entity q :: (logB ++ logP))
              rw [hcP, Compiled.empty_merge]
              exact FragOk.sealEntity hcomp hfresh
                ⟨q, some b, et.key, props, CompiledOData.new true et.insertable⟩
                rfl hbase' hnavs'
            · show EKey
                (((Compiled.empty.merge cB).merge cP).merge
                  (Compiled.new_entity_type
                    ⟨q, some b, et.key, props,
                      CompiledOData.new true et.insertable⟩)) q
              rw [hcP, Compiled.empty_merge]
              exact (EKey_merge _ _ _).mpr (Or.inr ((EKey_newET _ q).mpr rfl))
    -- structural and navigation properties
    · intro ps R fr l c props log h
      cases ps with
      | nil =>
        rw [compileProps_nil] at h
        injection h with h1
        injection h1 with h2 h34
        injection h34 with h3 h4
        subst h2
        subst h3
        subst h4
        refine ⟨Compiled.empty, ?_, FragOk.empty _, ?_⟩
        · show fr.current = fr.current.merge Compiled.empty
          exact (Compiled.merge_empty fr.current).symm
        · intro nv hnv
          simp [CompiledProperties.empty] at hnv
      | cons p rest =>
        cases p with
        | property nm tn =>
          rw [compileProps_property] at h
          rcases het : ensure_type f tn R ⟨fr :: l⟩ with e | ⟨cp, lp⟩
          · simp [het] at h
          · simp only [het] at h
            rcases hrec : CompiledProperties.compile f rest R
                (Stack.merge ⟨fr :: l⟩ cp) with e | ⟨c0, props0, lr⟩
            · simp [hrec] at h
            · simp only [hrec] at h
              injection h with h1
              injection h1 with h2 h34
              injection h34 with h3 h4
              subst h2
              subst h3
              subst h4
              have hcpOk : FragOk (fr :: l) cp lp := ihET tn R ⟨fr :: l⟩ cp lp het
              obtain ⟨d', hc0, hd'Ok, hd'navs⟩ :=
                ihPP rest R ⟨fr.entity_type, fr.current.merge cp⟩ l
                  c0 props0 lr hrec
              refine ⟨cp.merge d', ?_, ?_, ?_⟩
              · rw [hc0]
                show (fr.current.merge cp).merge d'
                  = fr.current.merge (cp.merge d')
                exact merge_assoc fr.current cp d'
              · exact hcpOk.compose hd'Ok
                  (fun x => avail_merge_frame fr.entity_type fr.current cp l x)
              · intro nv hnv
                have hnv' : nv ∈ props0.nav_properties := hnv
                rcases hd'navs nv hnv' with h' | h'
                · exact Or.inl ((EKey_merge _ _ _).mpr (Or.inr h'))
                · rw [avail_merge_frame] at h'
                  rcases h' with h' | h'
                  · exact Or.inr h'
                  · exact Or.inl ((EKey_merge _ _ _).mpr (Or.inl h'))
        | navProperty nm tn expand =>
          rw [compileProps_nav] at h
          rcases het : CompiledEntityType.ensure f tn.qualified_type_name R
              ⟨fr :: l⟩ with e | ⟨cp, lp⟩
          · simp [het] at h
          · simp only [het] at h
            rcases hrec : CompiledProperties.compile f rest R
                (Stack.merge ⟨fr :: l⟩ cp) with e | ⟨c0, props0, lr⟩
            · simp [hrec] at h
            · simp only [hrec] at h
              injection h with h1
              injection h1 with h2 h34
              injection h34 with h3 h4
              subst h2
              subst h3
              subst h4
              obtain ⟨hcpOk0, hcpAv⟩ :=
                ihEE tn.qualified_type_name R ⟨fr :: l⟩ cp lp het
              have hcpOk : FragOk (fr :: l) cp lp := hcpOk0
              obtain ⟨d', hc0, hd'Ok, hd'navs⟩ :=
                ihPP rest R ⟨fr.entity_type, fr.current.merge cp⟩ l
                  c0 props0 lr hrec
              refine ⟨cp.merge d', ?_, ?_, ?_⟩
              · rw [hc0]
                show (fr.current.merge cp).merge d'
                  = fr.current.merge (cp.merge d')
                exact merge_assoc fr.current cp d'
              · exact hcpOk.compose hd'Ok
                  (fun x => avail_merge_frame fr.entity_type fr.current cp l x)
              · intro nv hnv
                have hnv' : nv ∈
                    (if expand then CompiledNavProperty.expandable ⟨nm, tn⟩
                     else CompiledNavProperty.reference ⟨nm, tn⟩)
                      :: props0.nav_properties := hnv
                rcases List.mem_cons.mp hnv' with h' | h'
                · rw [h', navTarget_if]
                  rcases hcpAv with h'' | h''
                  · exact Or.inl ((EKey_merge _ _ _).mpr (Or.inl h''))
                  · exact Or.inr h''
                · rcases hd'navs nv h' with h'' | h''
                  · exact Or.inl ((EKey_merge _ _ _).mpr (Or.inr h''))
                  · rw [avail_merge_frame] at h''
                    rcases h'' with h'' | h''
                    · exact Or.inr h''
                    · exact Or.inl ((EKey_merge _ _ _).mpr (Or.inl h''))

end NvRedfish


namespace NvRedfish

theorem compileSingletons_nil (f : Nat) (singles : List String) (R : Resolver)
    (st : Stack) :
    compileSingletons f [] singles R st = .ok (st.done, []) := rfl

theorem compileSingletons_cons (f : Nat) (s : SingletonDecl)
    (rest : List SingletonDecl) (singles : List String) (R : Resolver)
    (st : Stack) :
    compileSingletons f (s :: rest) singles R st =
      (if s.name ∈ singles then
        match CompiledSingleton.compile f s R st with
        | .error e => .error e
        | .ok (c, _, log) =>
          match compileSingletons f rest singles R (st.merge c) with
          | .error e => .error e
          | .ok (c2, log2) => .ok (c2, log ++ log2)
      else
        compileSingletons f rest singles R st) := rfl

theorem compileSchemas_nil (f : Nat) (singles : List String) (R : Resolver)
    (st : Stack) :
    compileSchemas f [] singles R st = .ok (st.done, []) := rfl

theorem compileSchemas_cons (f : Nat)
    (s : EdmxNamespace × Option EntityContainer)
    (rest : List (EdmxNamespace × Option EntityContainer))
    (singles : List String) (R : Resolver) (st : Stack) :
    compileSchemas f (s :: rest) singles R st =
      (match compile_schema f s.1 s.2 singles R st.new_frame with
      | .error e => .error e
      | .ok (c, log) =>
        match compileSchemas f rest singles R (st.merge c) with
        | .error e => .error e
        | .ok (c2, l2) => .ok (c2, log ++ l2)) := rfl

theorem compileDocs_nil (f : Nat) (singles : List String) (R : Resolver)
    (st : Stack) :
    compileDocs f [] singles R st = .ok (st.done, []) := rfl

theorem compileDocs_cons (f : Nat)
    (d : List (EdmxNamespace × Option EntityContainer))
    (rest : List (List (EdmxNamespace × Option EntityContainer)))
    (singles : List String) (R : Resolver) (st : Stack) :
    compileDocs f (d :: rest) singles R st =
      (match compileSchemas f d singles R st.new_frame with
      | .error e => .error e
      | .ok (c, log) =>
        match compileDocs f rest singles R (st.merge c) with
        | .error e => .error e
        | .ok (c2, l2) => .ok (c2, log ++ l2)) := rfl

/-- A singleton's compiled fragment satisfies the invariant on the chain
it was compiled against. -/
theorem singleton_fragOk (f : Nat) (s : SingletonDecl) (R : Resolver)
    (st : Stack) (c : Compiled) (qn : QualifiedName) (log : Log)
    (h : CompiledSingleton.compile f s R st = .ok (c, qn, log)) :
    FragOk st.frames c log := by
  simp only [CompiledSingleton.compile] at h
  rcases hfc : R.find_child f s.stype with e | ⟨qtype, et⟩
  · simp [hfc] at h
  · simp only [hfc] at h
    by_cases hcond : st.contains_entity qtype = true
    · rw [if_pos hcond] at h
      injection h with h1
      injection h1 with h2 h34
      injection h34 with h3 h4
      subst h2
      subst h4
      exact FragOk.empty _
    · rw [if_neg hcond] at h
      rcases hce : CompiledEntityType.compile f qtype et R st with e | ⟨c0, l0⟩
      · simp [hce] at h
      · simp only [hce] at h
        injection h with h1
        injection h1 with h2 h34
        injection h34 with h3 h4
        subst h2
        subst h4
        have hfresh : ¬ availE st.frames qtype := fun hav =>
          hcond ((containsEntityFrames_iff st.frames qtype).mpr hav)
        exact ((interp_invariant f).2.2.2.1 qtype et R st c0 l0 hfresh hce).1

/-- The singleton fold: its output extends the innermost frame's
accumulator by an invariant-satisfying fragment. -/
theorem singletons_fragOk (f : Nat) (ss : List SingletonDecl)
    (singles : List String) (R : Resolver) :
    ∀ (fr : Frame) (l : List Frame) (c : Compiled) (log : Log),
      compileSingletons f ss singles R ⟨fr :: l⟩ = .ok (c, log) →
      ∃ d, c = fr.current.merge d ∧ FragOk (fr :: l) d log := by
  induction ss with
  | nil =>
    intro fr l c log h
    rw [compileSingletons_nil] at h
    injection h with h1
    injection h1 with h2 h3
    subst h2
    subst h3
    exact ⟨Compiled.empty, (Compiled.merge_empty fr.current).symm, FragOk.empty _⟩
  | cons s rest ih =>
    intro fr l c log h
    rw [compileSingletons_cons] at h
    by_cases hmem : s.name ∈ singles
    · rw [if_pos hmem] at h
      rcases hs : CompiledSingleton.compile f s R ⟨fr :: l⟩
        with e | ⟨cS, qn, logS⟩
      · simp [hs] at h
      · simp only [hs] at h
        rcases hr : compileSingletons f rest singles R
            (Stack.merge ⟨fr :: l⟩ cS) with e | ⟨c2, log2⟩
        · simp [hr] at h
        · simp only [hr] at h
          injection h with h1
          injection h1 with h2 h3
          subst h2
          subst h3
          have hSOk : FragOk (fr :: l) cS logS :=
            singleton_fragOk f s R ⟨fr :: l⟩ cS qn logS hs
          obtain ⟨d2, hc2, hd2Ok⟩ :=
            ih ⟨fr.entity_type, fr.current.merge cS⟩ l c2 log2 hr
          refine ⟨cS.merge d2, ?_, ?_⟩
          · rw [hc2]
            show (fr.current.merge cS).merge d2
              = fr.current.merge (cS.merge d2)
            exact merge_assoc fr.current cS d2
          · exact hSOk.compose hd2Ok
              (fun x => avail_merge_frame fr.entity_type fr.current cS l x)
    · rw [if_neg hmem] at h
      exact ih fr l c log h

/-- One schema's fragment (compiled on a fresh frame) satisfies the
invariant on the surrounding chain. -/
theorem schema_fragOk (f : Nat) (ns : EdmxNamespace)
    (cont : Option EntityContainer) (singles : List String) (R : Resolver)
    (l : List Frame) (c : Compiled) (log : Log)
    (h : compile_schema f ns cont singles R ⟨⟨none, Compiled.empty⟩ :: l⟩
      = .ok (c, log)) :
    ∃ d, c = Compiled.empty.merge d ∧ FragOk l d log := by
  rcases cont with _ | ctr
  · simp only [compile_schema] at h
    injection h with h1
    injection h1 with h2 h3
    subst h2
    subst h3
    exact ⟨Compiled.empty, (Compiled.merge_empty _).symm, FragOk.empty _⟩
  · simp only [compile_schema] at h
    rcases hs : compileSingletons f ctr.singletons singles R
        ⟨⟨none, Compiled.empty⟩ :: l⟩ with e | ⟨c0, log0⟩
    · simp [hs] at h
    · simp only [hs] at h
      injection h with h1
      injection h1 with h2 h3
      subst h2
      subst h3
      obtain ⟨d, hc, hdOk⟩ := singletons_fragOk f ctr.singletons singles R
        ⟨none, Compiled.empty⟩ l c0 log0 hs
      exact ⟨d, hc, hdOk.congr_avail (fun x => (availE_consEmpty l x).symm)⟩

/-- The schema fold of one document. -/
theorem schemas_fragOk (f : Nat)
    (ss : List (EdmxNamespace × Option EntityContainer))
    (singles : List String) (R : Resolver) :
    ∀ (fr : Frame) (l : List Frame) (c : Compiled) (log : Log),
      compileSchemas f ss singles R ⟨fr :: l⟩ = .ok (c, log) →
      ∃ d, c = fr.current.merge d ∧ FragOk (fr :: l) d log := by
  induction ss with
  | nil =>
    intro fr l c log h
    rw [compileSchemas_nil] at h
    injection h with h1
    injection h1 with h2 h3
    subst h2
    subst h3
    exact ⟨Compiled.empty, (Compiled.merge_empty fr.current).symm, FragOk.empty _⟩
  | cons s rest ih =>
    intro fr l c log h
    rw [compileSchemas_cons] at h
    rcases hs : compile_schema f s.1 s.2 singles R
        (Stack.new_frame ⟨fr :: l⟩) with e | ⟨cS, logS⟩
    · simp [hs] at h
    · simp only [hs] at h
      rcases hr : compileSchemas f rest singles R
          (Stack.merge ⟨fr :: l⟩ cS) with e | ⟨c2, log2⟩
      · simp [hr] at h
      · simp only [hr] at h
        injection h with h1
        injection h1 with h2 h3
        subst h2
        subst h3
        obtain ⟨dS, hcS, hdSOk⟩ :=
          schema_fragOk f s.1 s.2 singles R (fr :: l) cS logS hs
        have hcS' : cS = dS := by
          rw [hcS]
          exact Compiled.empty_merge dS
        obtain ⟨d2, hc2, hd2Ok⟩ :=
          ih ⟨fr.entity_type, fr.current.merge cS⟩ l c2 log2 hr
        refine ⟨dS.merge d2, ?_, ?_⟩
        · rw [hc2, hcS']
          show (fr.current.merge dS).merge d2
            = fr.current.merge (dS.merge d2)
          exact merge_assoc fr.current dS d2
        · refine hdSOk.compose hd2Ok ?_
          intro x
          rw [hcS']
          exact avail_merge_frame fr.entity_type fr.current dS l x

/-- The document fold. -/
theorem docs_fragOk (f : Nat)
    (docs : List (List (EdmxNamespace × Option EntityContainer)))
    (singles : List String) (R : Resolver) :
    ∀ (fr : Frame) (l : List Frame) (c : Compiled) (log : Log),
      compileDocs f docs singles R ⟨fr :: l⟩ = .ok (c, log) →
      ∃ d, c = fr.current.merge d ∧ FragOk (fr :: l) d log := by
  induction docs with
  | nil =>
    intro fr l c log h
    rw [compileDocs_nil] at h
    injection h with h1
    injection h1 with h2 h3
    subst h2
    subst h3
    exact ⟨Compiled.empty, (Compiled.merge_empty fr.current).symm, FragOk.empty _⟩
  | cons dcs rest ih =>
    intro fr l c log h
    rw [compileDocs_cons] at h
    rcases hs : compileSchemas f dcs singles R
        (Stack.new_frame ⟨fr :: l⟩) with e | ⟨cD, logD⟩
    · simp [hs] at h
    · simp only [hs] at h
      rcases hr : compileDocs f rest singles R
          (Stack.merge ⟨fr :: l⟩ cD) with e | ⟨c2, log2⟩
      · simp [hr] at h
      · simp only [hr] at h
        injection h with h1
        injection h1 with h2 h3
        subst h2
        subst h3
        obtain ⟨dD, hcD, hdDOk⟩ := schemas_fragOk f dcs singles R
          ⟨none, Compiled.empty⟩ (fr :: l) cD logD hs
        have hcD' : cD = dD := by
          rw [hcD]
          exact Compiled.empty_merge dD
        have hdDOk' : FragOk (fr :: l) dD logD :=
          hdDOk.congr_avail (fun x => (availE_consEmpty (fr :: l) x).symm)
        obtain ⟨d2, hc2, hd2Ok⟩ :=
          ih ⟨fr.entity_type, fr.current.merge cD⟩ l c2 log2 hr
        refine ⟨dD.merge d2, ?_, ?_⟩
        · rw [hc2, hcD']
          show (fr.current.merge dD).merge d2
            = fr.current.merge (dD.merge d2)
          exact merge_assoc fr.current dD d2
        · refine hdDOk'.compose hd2Ok ?_
          intro x
          rw [hcD']
          exact avail_merge_frame fr.entity_type fr.current dD l x

/-- Whenever a bundle compile succeeds, the resulting IR satisfies the
fragment invariant on the empty chain, and the log's entity events are
its compile history. -/
theorem bundle_fragOk (f : Nat) (b : SchemaBundle) (singles : List String)
    (c : Compiled) (log : Log)
    (h : SchemaBundle.compile f b singles = .ok (c, log)) :
    FragOk [] c log := by
  simp only [SchemaBundle.compile] at h
  obtain ⟨d, hc, hdOk⟩ := docs_fragOk f
    (b.edmx_docs.map (fun d => d.schemas.map Schema.head)) singles
    (SchemaIndex.build b.edmx_docs).toResolver
    ⟨none, Compiled.empty⟩ [] c log h
  have hc' : c = d := by
    rw [hc]
    exact Compiled.empty_merge d
  rw [hc']
  exact hdOk.congr_avail (fun x => (availE_consEmpty [] x).symm)

end NvRedfish


namespace NvRedfish

/-- The claim's no-dangling-reference property of an IR: every base and
navigation-target qualified name inside any compiled entity or complex
type is a key of the corresponding map of the same IR, or primitive, or
the owning type itself. -/
def NoDanglingIR (c : Compiled) : Prop :=
  (∀ q et, c.entity_types q = some et →
    (∀ b, et.base = some b →
      (c.entity_types b).isSome = true ∨ is_simple_type b ∨ b = q) ∧
    ∀ nv ∈ et.properties.nav_properties,
      (c.entity_types nv.target).isSome = true ∨ is_simple_type nv.target
        ∨ nv.target = q) ∧
  (∀ q ct, c.complex_types q = some ct →
    (∀ b, ct.base = some b →
      ((c.complex_types b).isSome = true ∨ (c.type_definitions b).isSome = true
        ∨ (c.enum_types b).isSome = true) ∨ is_simple_type b ∨ b = q) ∧
    ∀ nv ∈ ct.properties.nav_properties,
      (c.entity_types nv.target).isSome = true ∨ is_simple_type nv.target
        ∨ nv.target = q)

/-- C2: whenever `SchemaBundle::compile` returns Ok, the resulting IR has
no dangling references — for every compiled entity and complex type, the
base qualified name (if any) and every navigation-property target is a
key of the corresponding map of the same IR, or names a primitive type,
or is the type itself. -/
theorem compile_no_dangling_refs (f : Nat) (b : SchemaBundle)
    (singles : List String) (c : Compiled) (log : Log)
    (h : SchemaBundle.compile f b singles = .ok (c, log)) :
    NoDanglingIR c := by
  have hOk := bundle_fragOk f b singles c log h
  constructor
  · intro q et hq
    obtain ⟨h1, h2⟩ := hOk.closedE q et hq
    constructor
    · intro bb hbb
      rcases h1 bb hbb with h' | h'
      · exact Or.inl h'
      · exact absurd h' (availE_nil bb)
    · intro nv hnv
      rcases h2 nv hnv with h' | h'
      · exact Or.inl h'
      · exact absurd h' (availE_nil _)
  · intro q ct hq
    obtain ⟨h1, h2⟩ := hOk.closedC q ct hq
    constructor
    · intro bb hbb
      exact Or.inl (h1 bb hbb)
    · intro nv hnv
      rcases h2 nv hnv with h' | h'
      · exact Or.inl h'
      · exact absurd h' (availE_nil _)

/-- The mutual-cycle bundle's successful run, used as a concrete output
on which the closure theorems are instantiated. -/
def ndWitnessRun : Compiled × Log :=
  (SchemaBundle.compile 40 (mutualBundle ["Example"] "A" "B") ["S"]).toOption.getD
    (Compiled.empty, [])

set_option maxRecDepth 10000 in
theorem compile_no_dangling_refs_witness : NoDanglingIR ndWitnessRun.1 :=
  compile_no_dangling_refs 40 (mutualBundle ["Example"] "A" "B") ["S"]
    ndWitnessRun.1 ndWitnessRun.2 (by rfl)

/-- C3 (amended): in a successful run, entity-type resolver bodies run at
most once per qualified name, and every compiled entity type ends up as
an entity-type key of the final IR. -/
theorem entity_types_compiled_at_most_once (f : Nat) (b : SchemaBundle)
    (singles : List String) (c : Compiled) (log : Log)
    (h : SchemaBundle.compile f b singles = .ok (c, log)) :
    (entEvents log).Nodup ∧
      ∀ q ∈ entEvents log, (c.entity_types q).isSome = true := by
  have hOk := bundle_fragOk f b singles c log h
  exact ⟨hOk.evNodup, hOk.evKeys⟩

/-- The self-cycle bundle's successful run. -/
def onceWitnessRun : Compiled × Log :=
  (SchemaBundle.compile 40 (selfRefBundle ["Example"] "A") ["S"]).toOption.getD
    (Compiled.empty, [])

set_option maxRecDepth 10000 in
theorem entity_types_compiled_at_most_once_witness :
    (entEvents onceWitnessRun.2).Nodup ∧
      ∀ q ∈ entEvents onceWitnessRun.2,
        (onceWitnessRun.1.entity_types q).isSome = true :=
  entity_types_compiled_at_most_once 40 (selfRefBundle ["Example"] "A") ["S"]
    onceWitnessRun.1 onceWitnessRun.2 (by rfl)

/-- How often a complex-type compile event for `q` occurs in a trace. -/
def countComplexEvents : Log → QualifiedName → Nat
  | [], _ => 0
  | .complexT p :: rest, q =>
    (if p = q then 1 else 0) + countComplexEvents rest q
  | _ :: rest, q => countComplexEvents rest q

/-- An entity type with two structural properties whose complex types
share the base complex type `B`. -/
def sharedBaseBundle : SchemaBundle :=
  ⟨[⟨[⟨⟨["S"]⟩,
      [("E", .entityType ⟨"E", none, none,
        [.property "P1" (.one ⟨⟨["S"]⟩, "C1"⟩),
         .property "P2" (.one ⟨⟨["S"]⟩, "C2"⟩)], none⟩),
       ("C1", .complexType ⟨"C1", some ⟨⟨["S"]⟩, "B"⟩, []⟩),
       ("C2", .complexType ⟨"C2", some ⟨⟨["S"]⟩, "B"⟩, []⟩),
       ("B", .complexType ⟨"B", none, []⟩)],
      some ⟨[⟨"Sng", ⟨⟨["S"]⟩, "E"⟩⟩]⟩⟩]⟩]⟩

set_option maxRecDepth 10000 in
theorem complex_body_reruns_counterexample :
    (SchemaBundle.compile 40 sharedBaseBundle ["Sng"]).toOption.map
      (fun r => countComplexEvents r.2 ⟨⟨["S"]⟩, "B"⟩) = some 2 := by
  rfl

end NvRedfish


namespace NvRedfish

/-! Determinism under reordering of the hash-iterated type lists (C7). -/

theorem lookupType_eq_none (ts : List (String × TypeDecl)) (n : String) :
    Schema.lookupType ts n = none ↔ n ∉ ts.map Prod.fst := by
  induction ts with
  | nil => simp [Schema.lookupType]
  | cons p rest ih =>
    obtain ⟨k, t⟩ := p
    by_cases hk : k = n
    · subst hk
      simp [Schema.lookupType]
    · simp [Schema.lookupType, hk, ih, Ne.symm hk]

theorem lookupType_eq_some (ts : List (String × TypeDecl)) (n : String)
    (t : TypeDecl) (hnd : (ts.map Prod.fst).Nodup) :
    Schema.lookupType ts n = some t ↔ (n, t) ∈ ts := by
  induction ts with
  | nil => simp [Schema.lookupType]
  | cons p rest ih =>
    obtain ⟨k, u⟩ := p
    simp only [List.map_cons, List.nodup_cons] at hnd
    obtain ⟨hk, hnd'⟩ := hnd
    by_cases hkn : k = n
    · subst hkn
      simp only [Schema.lookupType, if_pos rfl]
      constructor
      · intro h
        injection h with h
        subst h
        exact List.mem_cons_self _ _
      · intro h
        rcases List.mem_cons.mp h with h | h
        · injection h with h1 h2
          subst h2
          rfl
        · exact absurd (List.mem_map_of_mem Prod.fst h) hk
    · simp only [Schema.lookupType, if_neg hkn]
      rw [ih hnd']
      constructor
      · exact fun h => List.mem_cons_of_mem _ h
      · intro h
        rcases List.mem_cons.mp h with h | h
        · injection h with h1 h2
          exact absurd h1.symm hkn
        · exact h

theorem lookupType_perm (ts1 ts2 : List (String × TypeDecl))
    (hp : ts1.Perm ts2) (hnd : (ts1.map Prod.fst).Nodup) (n : String) :
    Schema.lookupType ts1 n = Schema.lookupType ts2 n := by
  have hnd2 : (ts2.map Prod.fst).Nodup := ((hp.map Prod.fst).nodup_iff).mp hnd
  cases h1 : Schema.lookupType ts1 n with
  | some t =>
    have hm := (lookupType_eq_some ts1 n t hnd).mp h1
    exact ((lookupType_eq_some ts2 n t hnd2).mpr (hp.mem_iff.mp hm)).symm
  | none =>
    have hm := (lookupType_eq_none ts1 n).mp h1
    have h2 : n ∉ ts2.map Prod.fst := fun hc =>
      hm (((hp.map Prod.fst).mem_iff).mpr hc)
    exact ((lookupType_eq_none ts2 n).mpr h2).symm

/-- Two schemas describing the same declaration set: equal namespace and
container, type lists that are permutations with distinct keys. -/
def SchemaReordered (s1 s2 : Schema) : Prop :=
  s1.ns = s2.ns ∧ s1.entity_container = s2.entity_container ∧
    s1.types.Perm s2.types ∧ (s1.types.map Prod.fst).Nodup

/-- Two bundles describing the same declaration sets, document by
document and schema by schema. -/
def BundleReordered (b1 b2 : SchemaBundle) : Prop :=
  List.Forall₂ (fun d1 d2 : Edmx =>
    List.Forall₂ SchemaReordered d1.schemas d2.schemas)
    b1.edmx_docs b2.edmx_docs

/-- Relating the two indexes pointwise. -/
def SchemaRel : Option Schema → Option Schema → Prop
  | none, none => True
  | some s1, some s2 => SchemaReordered s1 s2
  | _, _ => False

theorem foldSchemas_rel (ss1 ss2 : List Schema)
    (hf : List.Forall₂ SchemaReordered ss1 ss2) :
    ∀ (m1 m2 : EdmxNamespace → Option Schema),
      (∀ n, SchemaRel (m1 n) (m2 n)) → ∀ n,
      SchemaRel
        (ss1.foldl (fun m s => fun n => if n = s.ns then some s else m n) m1 n)
        (ss2.foldl (fun m s => fun n => if n = s.ns then some s else m n) m2 n)
    := by
  induction hf with
  | nil =>
    intro m1 m2 hm n
    exact hm n
  | @cons a b l1 l2 h1 h2 ih =>
    intro m1 m2 hm n
    refine ih _ _ ?_ n
    intro n'
    obtain ⟨hns, hct, hperm, hnd⟩ := h1
    show SchemaRel (if n' = a.ns then some a else m1 n')
      (if n' = b.ns then some b else m2 n')
    rw [hns]
    by_cases hn : n' = b.ns
    · rw [if_pos hn, if_pos hn]
      exact ⟨hns, hct, hperm, hnd⟩
    · rw [if_neg hn, if_neg hn]
      exact hm n'

theorem foldDocs_rel (docs1 docs2 : List Edmx)
    (hf : List.Forall₂ (fun d1 d2 : Edmx =>
      List.Forall₂ SchemaReordered d1.schemas d2.schemas) docs1 docs2) :
    ∀ (m1 m2 : EdmxNamespace → Option Schema),
      (∀ n, SchemaRel (m1 n) (m2 n)) → ∀ n,
      SchemaRel
        (docs1.foldl (fun m doc => doc.schemas.foldl
          (fun m s => fun n => if n = s.ns then some s else m n) m) m1 n)
        (docs2.foldl (fun m doc => doc.schemas.foldl
          (fun m s => fun n => if n = s.ns then some s else m n) m) m2 n) := by
  induction hf with
  | nil =>
    intro m1 m2 hm n
    exact hm n
  | cons h1 h2 ih =>
    intro m1 m2 hm n
    exact ih _ _ (foldSchemas_rel _ _ h1 m1 m2 hm) n

theorem find_entity_type_congr (idx1 idx2 : SchemaIndex)
    (hrel : ∀ n, SchemaRel (idx1.index n) (idx2.index n)) (q : QualifiedName) :
    idx1.find_entity_type q = idx2.find_entity_type q := by
  have h := hrel q.ns
  rcases h1 : idx1.index q.ns with _ | s1 <;>
    rcases h2 : idx2.index q.ns with _ | s2 <;> rw [h1, h2] at h
  · simp [SchemaIndex.find_entity_type, h1, h2]
  · exact False.elim h
  · exact False.elim h
  · have h' : SchemaReordered s1 s2 := h
    obtain ⟨hns, hct, hperm, hnd⟩ := h'
    simp only [SchemaIndex.find_entity_type, h1, h2]
    rw [lookupType_perm s1.types s2.types hperm hnd q.name]

theorem find_type_congr (idx1 idx2 : SchemaIndex)
    (hrel : ∀ n, SchemaRel (idx1.index n) (idx2.index n)) (q : QualifiedName) :
    idx1.find_type q = idx2.find_type q := by
  have h := hrel q.ns
  rcases h1 : idx1.index q.ns with _ | s1 <;>
    rcases h2 : idx2.index q.ns with _ | s2 <;> rw [h1, h2] at h
  · simp [SchemaIndex.find_type, h1, h2]
  · exact False.elim h
  · exact False.elim h
  · have h' : SchemaReordered s1 s2 := h
    obtain ⟨hns, hct, hperm, hnd⟩ := h'
    simp only [SchemaIndex.find_type, h1, h2]
    rw [lookupType_perm s1.types s2.types hperm hnd q.name]

/-- The derived-type entries one type list contributes to the reverse map
at key `q`. -/
def childTypesOf (ns : EdmxNamespace) (ts : List (String × TypeDecl))
    (q : QualifiedName) : List QualifiedName :=
  ts.filterMap (fun p =>
    match p.2 with
    | .entityType et =>
      match et.base_type with
      | some b => if q = b then some ⟨ns, et.name⟩ else none
      | none => none
    | _ => none)

theorem childMapAddTypes_eq (ns : EdmxNamespace)
    (ts : List (String × TypeDecl)) :
    ∀ (m : QualifiedName → List QualifiedName) (q : QualifiedName),
      childMapAddTypes ns m ts q = m q ++ childTypesOf ns ts q := by
  induction ts with
  | nil =>
    intro m q
    simp [childMapAddTypes, childTypesOf]
  | cons p rest ih =>
    intro m q
    obtain ⟨k, d⟩ := p
    cases d with
    | entityType et =>
      rcases hbt : et.base_type with _ | b
      · simp only [childMapAddTypes, hbt, ih, childTypesOf, List.filterMap_cons]
      · simp only [childMapAddTypes, hbt, ih, childTypesOf, List.filterMap_cons]
        by_cases hq : q = b
        · rw [if_pos hq, if_pos hq]
          simp
        · rw [if_neg hq, if_neg hq]
    | complexType ct =>
      simp only [childMapAddTypes, ih, childTypesOf, List.filterMap_cons]
    | typeDefinition td =>
      simp only [childMapAddTypes, ih, childTypesOf, List.filterMap_cons]
    | enumType en =>
      simp only [childMapAddTypes, ih, childTypesOf, List.filterMap_cons]

theorem childMapAddSchemas_cons (m : QualifiedName → List QualifiedName)
    (s : Schema) (rest : List Schema) :
    childMapAddSchemas m (s :: rest)
      = childMapAddSchemas (childMapAddTypes s.ns m s.types) rest := rfl

theorem childMapAddDocs_cons (m : QualifiedName → List QualifiedName)
    (d : Edmx) (rest : List Edmx) :
    childMapAddDocs m (d :: rest)
      = childMapAddDocs (childMapAddSchemas m d.schemas) rest := rfl

theorem childMapAddSchemas_perm (ss1 ss2 : List Schema)
    (hf : List.Forall₂ SchemaReordered ss1 ss2) :
    ∀ (m1 m2 : QualifiedName → List QualifiedName),
      (∀ q, (m1 q).Perm (m2 q)) → ∀ q,
      (childMapAddSchemas m1 ss1 q).Perm (childMapAddSchemas m2 ss2 q) := by
  induction hf with
  | nil =>
    intro m1 m2 hm q
    exact hm q
  | cons h1 h2 ih =>
    intro m1 m2 hm q
    rw [childMapAddSchemas_cons, childMapAddSchemas_cons]
    refine ih _ _ ?_ q
    intro q'
    rw [childMapAddTypes_eq, childMapAddTypes_eq]
    obtain ⟨hns, hct, hperm, hnd⟩ := h1
    refine (hm q').append ?_
    rw [hns]
    exact hperm.filterMap _

theorem childMapAddDocs_perm (docs1 docs2 : List Edmx)
    (hf : List.Forall₂ (fun d1 d2 : Edmx =>
      List.Forall₂ SchemaReordered d1.schemas d2.schemas) docs1 docs2) :
    ∀ (m1 m2 : QualifiedName → List QualifiedName),
      (∀ q, (m1 q).Perm (m2 q)) → ∀ q,
      (childMapAddDocs m1 docs1 q).Perm (childMapAddDocs m2 docs2 q) := by
  induction hf with
  | nil =>
    intro m1 m2 hm q
    exact hm q
  | cons h1 h2 ih =>
    intro m1 m2 hm q
    rw [childMapAddDocs_cons, childMapAddDocs_cons]
    exact ih _ _ (fun q' => childMapAddSchemas_perm _ _ h1 m1 m2 hm q') q

theorem find_child_succ (idx : SchemaIndex) (fuel : Nat) (q : QualifiedName) :
    idx.find_child_entity_type (fuel + 1) q =
      (match idx.child_map q with
      | [] =>
        match idx.find_entity_type q with
        | some et => .ok (q, et)
        | none => .error (.entityTypeNotFound q)
      | [c] => idx.find_child_entity_type fuel c
      | _ => .error (.ambigousHeirarchy q)) := rfl

theorem find_child_congr (idx1 idx2 : SchemaIndex)
    (hcm : ∀ q, (idx1.child_map q).Perm (idx2.child_map q))
    (hfe : ∀ q, idx1.find_entity_type q = idx2.find_entity_type q) :
    ∀ (fuel : Nat) (q : QualifiedName),
      idx1.find_child_entity_type fuel q
        = idx2.find_child_entity_type fuel q := by
  intro fuel
  induction fuel with
  | zero =>
    intro q
    rfl
  | succ fuel ih =>
    intro q
    rw [find_child_succ, find_child_succ]
    rcases h1 : idx1.child_map q with _ | ⟨c, cs⟩
    · have h2 : idx2.child_map q = [] := by
        have hp := hcm q
        rw [h1] at hp
        exact List.perm_nil.mp hp.symm
      simp only [h2, hfe q]
    · rcases cs with _ | ⟨c2, cs2⟩
      · have h2 : idx2.child_map q = [c] := by
          have hp := hcm q
          rw [h1] at hp
          exact List.perm_singleton.mp hp.symm
        simp only [h2]
        exact ih c
      · obtain ⟨a, b2, rest2, h2⟩ : ∃ a b rest2,
            idx2.child_map q = a :: b :: rest2 := by
          have hl := (hcm q).length_eq
          rw [h1] at hl
          rcases hx : idx2.child_map q with _ | ⟨a, _ | ⟨b, rest2⟩⟩
          · rw [hx] at hl
            simp at hl
          · rw [hx] at hl
            simp at hl
          · exact ⟨a, b, rest2, rfl⟩
        simp only [h2]

theorem head_eq_of_reordered (ss1 ss2 : List Schema)
    (hf : List.Forall₂ SchemaReordered ss1 ss2) :
    ss1.map Schema.head = ss2.map Schema.head := by
  induction hf with
  | nil => rfl
  | cons h1 h2 ih =>
    obtain ⟨hns, hct, _, _⟩ := h1
    simp only [List.map_cons, ih]
    congr 1
    simp [Schema.head, hns, hct]

theorem proj_eq_of_reordered (docs1 docs2 : List Edmx)
    (hf : List.Forall₂ (fun d1 d2 : Edmx =>
      List.Forall₂ SchemaReordered d1.schemas d2.schemas) docs1 docs2) :
    docs1.map (fun d => d.schemas.map Schema.head)
      = docs2.map (fun d => d.schemas.map Schema.head) := by
  induction hf with
  | nil => rfl
  | cons h1 h2 ih =>
    simp only [List.map_cons, ih]
    congr 1
    exact head_eq_of_reordered _ _ h1

/-- C7: `SchemaBundle::compile` is deterministic over the declaration
sets — two bundles holding the same declarations, with each schema's type
list traversed in any order (the hash-map iteration), compile to the very
same result. -/
theorem compile_deterministic_up_to_map_order (f : Nat) (b1 b2 : SchemaBundle)
    (singles : List String) (h : BundleReordered b1 b2) :
    SchemaBundle.compile f b1 singles = SchemaBundle.compile f b2 singles := by
  have hinit : ∀ n : EdmxNamespace,
      SchemaRel ((fun _ : EdmxNamespace => (none : Option Schema)) n)
        ((fun _ : EdmxNamespace => (none : Option Schema)) n) :=
    fun _ => trivial
  have hidx : ∀ n, SchemaRel ((SchemaIndex.build b1.edmx_docs).index n)
      ((SchemaIndex.build b2.edmx_docs).index n) :=
    fun n => foldDocs_rel _ _ h _ _ hinit n
  have hfe : ∀ q, (SchemaIndex.build b1.edmx_docs).find_entity_type q
      = (SchemaIndex.build b2.edmx_docs).find_entity_type q :=
    fun q => find_entity_type_congr _ _ hidx q
  have hft : ∀ q, (SchemaIndex.build b1.edmx_docs).find_type q
      = (SchemaIndex.build b2.edmx_docs).find_type q :=
    fun q => find_type_congr _ _ hidx q
  have hcm : ∀ q, ((SchemaIndex.build b1.edmx_docs).child_map q).Perm
      ((SchemaIndex.build b2.edmx_docs).child_map q) :=
    fun q => childMapAddDocs_perm _ _ h _ _ (fun _ => List.Perm.refl _) q
  have hfc := find_child_congr _ _ hcm hfe
  have hres : (SchemaIndex.build b1.edmx_docs).toResolver
      = (SchemaIndex.build b2.edmx_docs).toResolver := by
    simp only [SchemaIndex.toResolver]
    congr 1
    · exact funext hfe
    · exact funext hft
    · funext fuel q
      exact hfc fuel q
  have hproj := proj_eq_of_reordered _ _ h
  rw [SchemaBundle.compile, SchemaBundle.compile, hres, hproj]

/-- A bundle with a base and a derived entity type and a singleton rooted
at the base, declared in one order... -/
def detBundleA : SchemaBundle :=
  ⟨[⟨[⟨⟨["D"]⟩,
      [("B", .entityType ⟨"B", none, none, [], none⟩),
       ("E", .entityType ⟨"E", some ⟨⟨["D"]⟩, "B"⟩, none, [], none⟩)],
      some ⟨[⟨"S", ⟨⟨["D"]⟩, "B"⟩⟩]⟩⟩]⟩]⟩

/-- The same declarations with the type list reversed. -/
def detBundleB : SchemaBundle :=
  ⟨[⟨[⟨⟨["D"]⟩,
      [("E", .entityType ⟨"E", some ⟨⟨["D"]⟩, "B"⟩, none, [], none⟩),
       ("B", .entityType ⟨"B", none, none, [], none⟩)],
      some ⟨[⟨"S", ⟨⟨["D"]⟩, "B"⟩⟩]⟩⟩]⟩]⟩

theorem compile_deterministic_up_to_map_order_witness :
    SchemaBundle.compile 40 detBundleA ["S"]
      = SchemaBundle.compile 40 detBundleB ["S"] :=
  compile_deterministic_up_to_map_order 40 detBundleA detBundleB ["S"]
    (by
      refine List.Forall₂.cons ?_ List.Forall₂.nil
      refine List.Forall₂.cons ?_ List.Forall₂.nil
      exact ⟨rfl, rfl, by decide, by decide⟩)

end NvRedfish
